import Mathlib

/- Shallow embedding of the violation-analysis pipeline of
   services/violation_detector/main.py.  Pixel coordinates and wall-clock
   times are modelled as rationals.  The source computes Euclidean distances
   with a square root; every distance is used only in comparisons against
   nonnegative thresholds, so the embedding carries the squared distance and
   compares it against the squared threshold (the square root is strictly
   monotone on nonnegative reals, hence every comparison is preserved).
   Python float infinity, returned when no scooper is present, is modelled
   by Option, with none standing for infinity. -/

structure Pt where
  x : ℚ
  y : ℚ
deriving DecidableEq, Repr

/-- Squared Euclidean distance between two centers; the source's
_calculate_distance returns the square root of this quantity. -/
def calculate_distance_sq (pos1 pos2 : Pt) : ℚ :=
  (pos1.x - pos2.x) ^ 2 + (pos1.y - pos2.y) ^ 2

/-- Detection record (main.py dataclass Detection), restricted to the fields
the analysis pipeline reads; bbox is the bounding-box dict, whose truthiness
_is_in_roi tests, kept as an association list. -/
structure Detection where
  class_name : String
  confidence : ℚ
  bbox : List (String × ℚ)
  center : Pt
  area : ℚ
deriving DecidableEq, Repr

/-- ROI record (main.py dataclass ROI). -/
structure ROI where
  name : String
  shape : String
  ingredient_type : String
  requires_scooper : Bool
  x : Option ℚ
  y : Option ℚ
  width : Option ℚ
  height : Option ℚ
  points : Option (List Pt)
deriving DecidableEq, Repr

/-- One iteration of the ray-casting loop body of _point_in_polygon: does the
directed edge from p1 to p2 toggle the parity at (x, y)?  In the source the
crossing abscissa is only computed when the edge is not horizontal, and the
enclosing range check makes a horizontal edge unreachable in the toggling
branch, so the division below is never taken with a zero denominator on a
reachable path. -/
def edge_toggles (x y : ℚ) (p1 p2 : Pt) : Bool :=
  if y > min p1.y p2.y ∧ y ≤ max p1.y p2.y ∧ x ≤ max p1.x p2.x then
    if p1.x = p2.x then true
    else decide (x ≤ (y - p1.y) * (p2.x - p1.x) / (p2.y - p1.y) + p1.x)
  else false

/-- Directed edges traversed by the loop of _point_in_polygon:
(points[i-1], points[i mod n]) for i = 1..n. -/
def polygon_edges (points : List Pt) : List (Pt × Pt) :=
  points.zip (points.rotate 1)

/-- Ray-casting point-in-polygon test (main.py _point_in_polygon).  An empty
vertex list raises IndexError in the source, caught by the enclosing handler
which returns False; here the fold over an empty edge list returns false. -/
def point_in_polygon (x y : ℚ) (points : List Pt) : Bool :=
  (polygon_edges points).foldl
    (fun inside e => if edge_toggles x y e.1 e.2 then !inside else inside) false

/-- Containment test of a detection in an ROI (main.py _is_in_roi): the
detection's center point is tested, rectangles by closed axis-aligned
inclusion (a missing width or height reads as 0), polygons by ray casting.
A detection with an empty bbox dict is rejected up front, mirroring the
source's falsy-bbox guard, and so is a polygon ROI with an empty or missing
point list. -/
def is_in_roi (detection : Detection) (roi : ROI) : Bool :=
  if detection.bbox = [] then false
  else if roi.shape = "rectangle" then
    match roi.x, roi.y with
    | some rx, some ry =>
        decide (rx ≤ detection.center.x ∧ detection.center.x ≤ rx + roi.width.getD 0 ∧
                ry ≤ detection.center.y ∧ detection.center.y ≤ ry + roi.height.getD 0)
    | _, _ => false
  else if roi.shape = "polygon" then
    match roi.points with
    | some pts =>
        if pts = [] then false
        else point_in_polygon detection.center.x detection.center.y pts
    | none => false
  else false

/-- Squared distance from a hand to the closest scooper, none when no
scooper is detected (the source initializes closest_distance to float
infinity and takes a strict running minimum over the scoopers). -/
def closest_scooper_distance_sq (hand : Detection) (scoopers : List Detection) : Option ℚ :=
  scoopers.foldl
    (fun best scooper =>
      let d := calculate_distance_sq hand.center scooper.center
      match best with
      | none => some d
      | some b => if d < b then some d else some b)
    none

/-- Simple tiered scooper-usage classifier (main.py
_is_hand_using_scooper_simple).  Distances are squared, so the source's
50 px and 100 px thresholds appear as 50^2 and 100^2.  The
ALLOW_NEARBY_SCOOPER_FALLBACK environment switch read at call time is the
allow_nearby parameter. -/
def is_hand_using_scooper_simple (hand : Detection) (scoopers : List Detection)
    (allow_nearby : Bool) : Bool :=
  match closest_scooper_distance_sq hand scoopers with
  | none => false
  | some closest =>
      if closest ≤ 50 ^ 2 then true
      else if closest ≤ 100 ^ 2 then allow_nearby
      else false

/-- main.py _get_closest_scooper_distance repeats the same strict running
minimum over the scoopers, returning float infinity (none) when there is no
scooper. -/
def get_closest_scooper_distance_sq (hand : Detection) (scoopers : List Detection) : Option ℚ :=
  closest_scooper_distance_sq hand scoopers

/-- Body of the inner loop of main.py _associate_hands_with_workers: a
strict running minimum over the persons, accepting a person only when the
distance is strictly below 150 px (150^2 when squared); the accumulator
carries min_distance together with closest person index + 1. -/
def closest_worker_step (hand : Detection) (best : Option (ℚ × Nat))
    (pp : Nat × Detection) : Option (ℚ × Nat) :=
  let d := calculate_distance_sq hand.center pp.2.center
  match best with
  | none => if d < 150 ^ 2 then some (d, pp.1 + 1) else none
  | some mw => if d < mw.1 ∧ d < 150 ^ 2 then some (d, pp.1 + 1) else some mw

/-- Inner loop of main.py _associate_hands_with_workers for one hand. -/
def closest_worker (hand : Detection) (persons : List Detection) : Option (ℚ × Nat) :=
  persons.enum.foldl (closest_worker_step hand) none

/-- Body of the outer loop of main.py _associate_hands_with_workers: record
the worker id for this hand index when a person qualified. -/
def associate_step (persons : List Detection) (acc : List (Nat × Nat))
    (hp : Nat × Detection) : List (Nat × Nat) :=
  match closest_worker hp.2 persons with
  | some mw => acc ++ [(hp.1, mw.2)]
  | none => acc

/-- Hand-to-worker association (main.py _associate_hands_with_workers): with
no persons the dict stays empty, otherwise each hand gets the worker id from
its closest_worker scan when one qualified.  The association dict is
returned as a list of (hand index, worker id) pairs in hand order. -/
def associate_hands_with_workers (hands persons : List Detection) : List (Nat × Nat) :=
  if persons = [] then []
  else hands.enum.foldl (associate_step persons) []

/-- Dictionary lookup for the integer-keyed association map. -/
def lookupN {α : Type} (l : List (Nat × α)) (k : Nat) : Option α :=
  match l with
  | [] => none
  | kv :: t => if kv.1 = k then some kv.2 else lookupN t k

/-- Dictionary lookup for the string-keyed state maps. -/
def lookupS {α : Type} (l : List (String × α)) (k : String) : Option α :=
  match l with
  | [] => none
  | kv :: t => if kv.1 = k then some kv.2 else lookupS t k

/-- Dictionary deletion for the string-keyed state maps. -/
def eraseS {α : Type} (l : List (String × α)) (k : String) : List (String × α) :=
  match l with
  | [] => []
  | kv :: t => if kv.1 = k then eraseS t k else kv :: eraseS t k

/-- Dictionary write for the string-keyed state maps. -/
def insertS {α : Type} (l : List (String × α)) (k : String) (v : α) : List (String × α) :=
  (k, v) :: eraseS l k

/-- ROISequence dataclass (main.py): one uninterrupted presence of a hand
inside an ROI, from entry to exit. -/
structure ROISequence where
  sequence_id : String
  hand_id : String
  roi_name : String
  worker_id : Option Nat
  entry_frame : String
  exit_frame : Option String
  entry_time : ℚ
  exit_time : Option ℚ
  frames_in_roi : List String
  positions_in_roi : List Pt
  scooper_usage_frames : List Bool
  scooper_distances : List (Option ℚ)
  is_active : Bool
  is_complete : Bool
deriving DecidableEq, Repr

/-- ROISequence.add_frame. -/
def ROISequence.add_frame (s : ROISequence) (frame_id : String) (position : Pt)
    (using_scooper : Bool) (scooper_distance : Option ℚ) : ROISequence :=
  { s with frames_in_roi := s.frames_in_roi ++ [frame_id],
           positions_in_roi := s.positions_in_roi ++ [position],
           scooper_usage_frames := s.scooper_usage_frames ++ [using_scooper],
           scooper_distances := s.scooper_distances ++ [scooper_distance] }

/-- ROISequence.complete_sequence, stamped with the wall clock now. -/
def ROISequence.complete_sequence (s : ROISequence) (exit_frame : String)
    (now : ℚ) : ROISequence :=
  { s with exit_frame := some exit_frame, exit_time := some now,
           is_active := false, is_complete := true }

inductive ViolationType where
  | HAND_WITHOUT_SCOOPER
  | INGREDIENT_GRABBED_NO_SCOOPER
  | IMPROPER_HYGIENE
deriving DecidableEq, Repr

/-- ViolationEvent model restricted to the fields the claims mention; time is
the wall clock at creation and sequence_key the key the event is published
under. -/
structure ViolationEvent where
  violation_id : String
  frame_id : String
  time : ℚ
  violation_type : ViolationType
  description : String
  confidence : ℚ
  worker_id : Option Nat
  roi_name : String
  severity : String
  sequence_key : String
deriving DecidableEq, Repr

/-- Mutable per-session state of ViolationDetector read and written by the
sequence tracker and the arbiter. -/
structure DetectorState where
  active_sequences : List (String × ROISequence)
  completed_sequences : List ROISequence
  sequence_violations : List (String × String)
  violation_timestamps : List (String × ℚ)
  violation_count : Nat
  sequence_counter : Nat
deriving DecidableEq, Repr

def initialState : DetectorState :=
  { active_sequences := [], completed_sequences := [], sequence_violations := [],
    violation_timestamps := [], violation_count := 0, sequence_counter := 0 }

/-- main.py _should_create_sequence_violation: suppression by the
per-sequence registry, then by the 30-second work-session cooldown, then the
scooper verdict at entry decides. -/
def should_create_sequence_violation (st : DetectorState) (sequence_key : String)
    (now : ℚ) (is_using_scooper : Bool) : Bool :=
  if (lookupS st.sequence_violations sequence_key).isSome then false
  else if (match lookupS st.violation_timestamps sequence_key with
           | some last => decide (now - last < 30)
           | none => false) then false
  else !is_using_scooper

/-- main.py _mark_sequence_as_violation. -/
def mark_sequence_as_violation (st : DetectorState) (sequence_key violation_id : String)
    (now : ℚ) : DetectorState :=
  { st with
    sequence_violations := insertS st.sequence_violations sequence_key violation_id,
    violation_timestamps := insertS st.violation_timestamps sequence_key now }

/-- main.py _check_sequence_completion: on exit the sequence is closed,
appended to the completed history, and both dedup registries drop the key. -/
def check_sequence_completion (st : DetectorState) (sequence_key frame_id : String)
    (now : ℚ) : DetectorState :=
  match lookupS st.active_sequences sequence_key with
  | none => st
  | some s =>
      { st with
        completed_sequences :=
          st.completed_sequences ++ [s.complete_sequence frame_id now],
        active_sequences := eraseS st.active_sequences sequence_key,
        sequence_violations := eraseS st.sequence_violations sequence_key,
        violation_timestamps := eraseS st.violation_timestamps sequence_key }

/-- main.py _update_roi_sequence: extend the active sequence for the key or
open a new one whose entry time is the wall clock now. -/
def update_roi_sequence (st : DetectorState) (hand_id roi_name frame_id : String)
    (hand_position : Pt) (using_scooper : Bool) (scooper_distance : Option ℚ)
    (worker_id : Option Nat) (now : ℚ) : DetectorState :=
  let sequence_key := hand_id ++ "_" ++ roi_name
  match lookupS st.active_sequences sequence_key with
  | some s =>
      { st with
        active_sequences :=
          insertS st.active_sequences sequence_key
            (s.add_frame frame_id hand_position using_scooper scooper_distance) }
  | none =>
      let n := st.sequence_counter + 1
      let s : ROISequence :=
        { sequence_id := "seq_" ++ toString n, hand_id := hand_id,
          roi_name := roi_name, worker_id := worker_id, entry_frame := frame_id,
          exit_frame := none, entry_time := now, exit_time := none,
          frames_in_roi := [], positions_in_roi := [], scooper_usage_frames := [],
          scooper_distances := [], is_active := true, is_complete := false }
      { st with sequence_counter := n,
                active_sequences :=
                  insertS st.active_sequences sequence_key
                    (s.add_frame frame_id hand_position using_scooper scooper_distance) }

/-- main.py _cleanup_old_sequences: trim the completed history to the 50 most
recent entries and delete active sequences whose entry is older than the
30-second staleness budget. -/
def cleanup_old_sequences (st : DetectorState) (now : ℚ) : DetectorState :=
  { st with
    completed_sequences :=
      if st.completed_sequences.length > 50
      then st.completed_sequences.drop (st.completed_sequences.length - 50)
      else st.completed_sequences,
    active_sequences :=
      st.active_sequences.filter (fun kv => !(decide (now - kv.2.entry_time > 30))) }

/-- main.py _cleanup_old_violation_timestamps: delete cooldown entries older
than 60 seconds. -/
def cleanup_old_violation_timestamps (st : DetectorState) (now : ℚ) : DetectorState :=
  { st with
    violation_timestamps :=
      st.violation_timestamps.filter (fun kv => !(decide (now - kv.2 > 60))) }

/-- One (hand, roi) iteration of the double loop of _detect_violations,
abstracted over the per-frame measurements the loop derives from the
detections: whether the hand center lies inside this scooper-requiring ROI,
the simple classifier verdict and its reported distance, and the hand's
identity, position, confidence and associated worker.  mk_frame_obs below
computes this list from raw detections. -/
structure Obs where
  hand_id : String
  roi_name : String
  in_roi : Bool
  using_scooper : Bool
  confidence : ℚ
  hand_position : Pt
  scooper_distance : Option ℚ
  worker_id : Option Nat
deriving DecidableEq, Repr

/-- Sequence key formed by the source as hand_id ++ "_" ++ roi.name. -/
def Obs.key (o : Obs) : String := o.hand_id ++ "_" ++ o.roi_name

/-- main.py _create_violation; cnt is the violation counter value after the
increment the method performs, and the caller then assigns worker_id on the
returned event. -/
def create_violation (cnt : Nat) (violation_type : ViolationType) (o : Obs)
    (frame_id description severity : String) (now : ℚ) : ViolationEvent :=
  { violation_id := "violation_" ++ toString cnt ++ "_" ++ frame_id,
    frame_id := frame_id, time := now, violation_type := violation_type,
    description := description, confidence := o.confidence, worker_id := none,
    roi_name := o.roi_name, severity := severity, sequence_key := o.key }

/-- One (hand, roi) step of _detect_violations: inside a scooper-requiring
ROI the arbiter runs on new entry only and the tracker then extends or opens
the sequence; outside, the tracker closes any active sequence for the key. -/
def process_obs (st : DetectorState) (now : ℚ) (frame_id : String) (o : Obs) :
    DetectorState × List ViolationEvent :=
  if o.in_roi then
    let is_new_entry := (lookupS st.active_sequences o.key).isNone
    let step :=
      if is_new_entry && should_create_sequence_violation st o.key now o.using_scooper then
        let cnt := st.violation_count + 1
        let ev0 :=
          create_violation cnt ViolationType.HAND_WITHOUT_SCOOPER o frame_id
            ("Hand in " ++ o.roi_name ++ " without scooper (complete sequence)")
            "high" now
        let ev := { ev0 with worker_id := o.worker_id }
        (mark_sequence_as_violation { st with violation_count := cnt } o.key
           ev.violation_id now,
         [ev])
      else (st, ([] : List ViolationEvent))
    (update_roi_sequence step.1 o.hand_id o.roi_name frame_id o.hand_position
       o.using_scooper o.scooper_distance o.worker_id now,
     step.2)
  else
    (check_sequence_completion st o.key frame_id now, [])

/-- Accumulating step of the flattened (hand, roi) loop of
_detect_violations: thread the state and collect the emitted events. -/
def obs_fold_step (now : ℚ) (frame_id : String)
    (acc : DetectorState × List ViolationEvent) (o : Obs) :
    DetectorState × List ViolationEvent :=
  let r := process_obs acc.1 now frame_id o
  (r.1, acc.2 ++ r.2)

/-- Per-frame step of _detect_violations over the flattened (hand, roi) loop,
followed by the two janitors the method runs before returning. -/
def detect_violations_step (st : DetectorState) (now : ℚ) (frame_id : String)
    (obs : List Obs) : DetectorState × List ViolationEvent :=
  let looped := obs.foldl (obs_fold_step now frame_id) (st, [])
  (cleanup_old_violation_timestamps (cleanup_old_sequences looped.1 now) now,
   looped.2)

/-- One analysis call: wall-clock time, frame id, and the flattened
observation list. -/
structure FrameIn where
  now : ℚ
  frame_id : String
  obs : List Obs
deriving Repr

/-- Accumulating step over successive analysis calls. -/
def frame_fold_step (acc : DetectorState × List ViolationEvent) (f : FrameIn) :
    DetectorState × List ViolationEvent :=
  let r := detect_violations_step acc.1 f.now f.frame_id f.obs
  (r.1, acc.2 ++ r.2)

/-- Run of the analyzer over successive frames, accumulating every
ViolationEvent emitted. -/
def run_frames (st : DetectorState) (frames : List FrameIn) :
    DetectorState × List ViolationEvent :=
  frames.foldl frame_fold_step (st, [])

/-- Events of a run that belong to a given sequence key. -/
def events_for (key : String) (evs : List ViolationEvent) : List ViolationEvent :=
  evs.filter (fun e => decide (e.sequence_key = key))

/-- Hand identity label used for the sequence key (main.py builds
hand_i_worker_w when a worker is associated and hand_i otherwise). -/
def mk_hand_id (i : Nat) (worker : Option Nat) : String :=
  match worker with
  | some w => "hand_" ++ toString i ++ "_worker_" ++ toString w
  | none => "hand_" ++ toString i

/-- Flattening of the (hand, roi) double loop of _detect_violations into the
observation list consumed by detect_violations_step: the hand, person and
scooper classes are filtered from the detections, hands are associated with
workers, and for each pair the containment test and the simple classifier
run on the frame's detections. -/
def mk_frame_obs (detections : List Detection) (rois : List ROI)
    (allow_nearby : Bool) : List Obs :=
  let hands := detections.filter
    (fun d => decide (d.class_name.toLower ∈ ["hand", "hands"]))
  let persons := detections.filter
    (fun d => decide (d.class_name.toLower ∈ ["person", "people"]))
  let scoopers := detections.filter
    (fun d => decide (d.class_name.toLower ∈ ["scooper", "scoopers", "spoon", "utensil"]))
  let assoc := associate_hands_with_workers hands persons
  hands.enum.flatMap (fun ih =>
    rois.map (fun roi =>
      { hand_id := mk_hand_id ih.1 (lookupN assoc ih.1),
        roi_name := roi.name,
        in_roi := roi.requires_scooper && is_in_roi ih.2 roi,
        using_scooper := is_hand_using_scooper_simple ih.2 scoopers allow_nearby,
        confidence := ih.2.confidence,
        hand_position := ih.2.center,
        scooper_distance := get_closest_scooper_distance_sq ih.2 scoopers,
        worker_id := lookupN assoc ih.1 }))

/-- Raw detection dict as received by the analyze endpoint; confidence is
none when the field is absent or null. -/
structure RawDetection where
  class_name : String
  confidence : Option ℚ
  bbox : List (String × ℚ)
  center : Pt
  area : ℚ
deriving DecidableEq, Repr

/-- main.py _parse_detections for one entry: a missing or null confidence is
coerced to 0.0. -/
def parse_detection (data : RawDetection) : Detection :=
  { class_name := data.class_name, confidence := data.confidence.getD 0,
    bbox := data.bbox, center := data.center, area := data.area }

/-- An axis-aligned rectangle with corner (x, y) and extents w, h expressed
as the 4-vertex polygon of its corners in traversal order. -/
def rect_polygon (x y w h : ℚ) : List Pt :=
  [⟨x, y⟩, ⟨x + w, y⟩, ⟨x + w, y + h⟩, ⟨x, y + h⟩]

/-- Budget of further violations the arbiter can emit for a key while its
per-sequence registry entry is absent: 0 once sequence_violations holds the
key, 1 otherwise. -/
def sv_budget (st : DetectorState) (k : String) : Nat :=
  if (lookupS st.sequence_violations k).isSome then 0 else 1

theorem lookupS_eraseS_self {α : Type} (l : List (String × α)) (k : String) :
    lookupS (eraseS l k) k = none := by
  induction l with
  | nil => rfl
  | cons kv t ih =>
      by_cases h : kv.1 = k
      · simp [eraseS, h, ih]
      · simp [eraseS, lookupS, h, ih]

theorem lookupS_eraseS_ne {α : Type} (l : List (String × α)) (k k' : String)
    (h : k' ≠ k) : lookupS (eraseS l k) k' = lookupS l k' := by
  induction l with
  | nil => rfl
  | cons kv t ih =>
      by_cases h1 : kv.1 = k
      · have h2 : kv.1 ≠ k' := by rw [h1]; exact Ne.symm h
        simp [eraseS, lookupS, h1, h2, ih, Ne.symm h]
      · by_cases h2 : kv.1 = k'
        · simp [eraseS, lookupS, h1, h2, h]
        · simp [eraseS, lookupS, h1, h2, ih]

theorem lookupS_insertS_self {α : Type} (l : List (String × α)) (k : String) (v : α) :
    lookupS (insertS l k v) k = some v := by
  simp [insertS, lookupS]

theorem lookupS_insertS_ne {α : Type} (l : List (String × α)) (k k' : String) (v : α)
    (h : k' ≠ k) : lookupS (insertS l k v) k' = lookupS l k' := by
  simp [insertS, lookupS, Ne.symm h, lookupS_eraseS_ne l k k' h]

theorem lookupS_filter_of_pos {α : Type} (l : List (String × α)) (k : String)
    (p : String × α → Bool) (s : α) (hl : lookupS l k = some s)
    (hp : p (k, s) = true) : lookupS (l.filter p) k = some s := by
  induction l with
  | nil => simp [lookupS] at hl
  | cons kv t ih =>
      by_cases h : kv.1 = k
      · have hkv : kv = (k, s) := by
          have : some kv.2 = some s := by simpa [lookupS, h] using hl
          cases kv
          simp_all
        rw [List.filter_cons]
        rw [hkv]
        simp [hp, lookupS]
      · have hl' : lookupS t k = some s := by simpa [lookupS, h] using hl
        rw [List.filter_cons]
        by_cases hq : p kv = true
        · simp [hq, lookupS, h, ih hl']
        · simp [hq, ih hl']

theorem edge_toggles_of_eq_y (x y : ℚ) (p1 p2 : Pt) (h : p1.y = p2.y) :
    edge_toggles x y p1 p2 = false := by
  have hc : ¬(y > min p1.y p2.y ∧ y ≤ max p1.y p2.y ∧ x ≤ max p1.x p2.x) := by
    rw [h, min_self, max_self]
    rintro ⟨h1, h2, -⟩
    linarith
  unfold edge_toggles
  rw [if_neg hc]

theorem edge_toggles_symm (x y : ℚ) (p q : Pt) :
    edge_toggles x y p q = edge_toggles x y q p := by
  unfold edge_toggles
  by_cases hc : y > min p.y q.y ∧ y ≤ max p.y q.y ∧ x ≤ max p.x q.x
  · have hc' : y > min q.y p.y ∧ y ≤ max q.y p.y ∧ x ≤ max q.x p.x := by
      rw [min_comm q.y p.y, max_comm q.y p.y, max_comm q.x p.x]
      exact hc
    rw [if_pos hc, if_pos hc']
    by_cases hx : p.x = q.x
    · rw [if_pos hx, if_pos hx.symm]
    · rw [if_neg hx, if_neg (Ne.symm hx)]
      have hy : p.y ≠ q.y := by
        intro hyy
        rcases hc with ⟨h1, h2, -⟩
        rw [hyy, min_self] at h1
        rw [hyy, max_self] at h2
        linarith
      have h1 : q.y - p.y ≠ 0 := sub_ne_zero.mpr (Ne.symm hy)
      have h2 : p.y - q.y ≠ 0 := sub_ne_zero.mpr hy
      have heq : (y - p.y) * (q.x - p.x) / (q.y - p.y) + p.x
          = (y - q.y) * (p.x - q.x) / (p.y - q.y) + q.x := by
        field_simp
        ring
      rw [heq]
  · have hc' : ¬(y > min q.y p.y ∧ y ≤ max q.y p.y ∧ x ≤ max q.x p.x) := by
      rw [min_comm q.y p.y, max_comm q.y p.y, max_comm q.x p.x]
      exact hc
    rw [if_neg hc, if_neg hc']

theorem point_in_polygon_nil (x y : ℚ) : point_in_polygon x y [] = false := rfl

theorem polygon_edges_one (p : Pt) : polygon_edges [p] = [(p, p)] := by
  simp [polygon_edges, List.rotate]

theorem polygon_edges_two (p q : Pt) : polygon_edges [p, q] = [(p, q), (q, p)] := by
  simp [polygon_edges, List.rotate]

theorem polygon_edges_four (a b c d : Pt) :
    polygon_edges [a, b, c, d] = [(a, b), (b, c), (c, d), (d, a)] := by
  simp [polygon_edges, List.rotate]

theorem point_in_polygon_one (x y : ℚ) (p : Pt) : point_in_polygon x y [p] = false := by
  simp [point_in_polygon, polygon_edges_one, edge_toggles_of_eq_y x y p p rfl]

theorem point_in_polygon_two (x y : ℚ) (p q : Pt) :
    point_in_polygon x y [p, q] = false := by
  have h : polygon_edges [p, q] = [(p, q), (q, p)] := polygon_edges_two p q
  have hsym := edge_toggles_symm x y p q
  simp only [point_in_polygon, h, List.foldl_cons, List.foldl_nil]
  rw [← hsym]
  cases edge_toggles x y p q <;> simp

/-- Degenerate polygons with fewer than 3 vertices contain no point under
the ray-casting test. -/
theorem point_in_polygon_degenerate (x y : ℚ) (pts : List Pt)
    (h : pts.length < 3) : point_in_polygon x y pts = false := by
  match pts, h with
  | [], _ => exact point_in_polygon_nil x y
  | [p], _ => exact point_in_polygon_one x y p
  | [p, q], _ => exact point_in_polygon_two x y p q

theorem edge_toggles_vertical (px py c y1 y2 : ℚ) :
    edge_toggles px py ⟨c, y1⟩ ⟨c, y2⟩
      = decide (py > min y1 y2 ∧ py ≤ max y1 y2 ∧ px ≤ c) := by
  by_cases hc : py > min y1 y2 ∧ py ≤ max y1 y2 ∧ px ≤ c
  · have hc' : py > min y1 y2 ∧ py ≤ max y1 y2 ∧ px ≤ max c c := by
      rw [max_self]; exact hc
    simp [edge_toggles, hc', hc]
  · have hc' : ¬(py > min y1 y2 ∧ py ≤ max y1 y2 ∧ px ≤ max c c) := by
      rw [max_self]; exact hc
    simp [edge_toggles, hc', hc]

theorem point_in_rect_polygon (x y w h px py : ℚ) (hw : 0 < w) (hh : 0 < h) :
    point_in_polygon px py (rect_polygon x y w h)
      = decide (x < px ∧ px ≤ x + w ∧ y < py ∧ py ≤ y + h) := by
  have e1 : edge_toggles px py ⟨x, y⟩ ⟨x + w, y⟩ = false :=
    edge_toggles_of_eq_y _ _ _ _ rfl
  have e3 : edge_toggles px py ⟨x + w, y + h⟩ ⟨x, y + h⟩ = false :=
    edge_toggles_of_eq_y _ _ _ _ rfl
  have e2 : edge_toggles px py ⟨x + w, y⟩ ⟨x + w, y + h⟩
      = decide (y < py ∧ py ≤ y + h ∧ px ≤ x + w) := by
    rw [edge_toggles_vertical]
    rw [min_eq_left (by linarith : y ≤ y + h), max_eq_right (by linarith : y ≤ y + h)]
  have e4 : edge_toggles px py ⟨x, y + h⟩ ⟨x, y⟩
      = decide (y < py ∧ py ≤ y + h ∧ px ≤ x) := by
    rw [edge_toggles_vertical]
    rw [min_eq_right (by linarith : y ≤ y + h), max_eq_left (by linarith : y ≤ y + h)]
  simp only [point_in_polygon, rect_polygon, polygon_edges_four, List.foldl_cons,
    List.foldl_nil, e1, e2, e3, e4, Bool.false_eq_true, if_false]
  by_cases h2 : y < py ∧ py ≤ y + h
  · by_cases h3 : px ≤ x + w
    · by_cases h4 : px ≤ x
      · have hx : ¬(x < px) := not_lt.mpr h4
        simp [h2.1, h2.2, h3, h4, hx]
      · have hx : x < px := not_le.mp h4
        simp [h2.1, h2.2, h3, h4, hx]
    · have h4 : ¬(px ≤ x) := fun hle => h3 (by linarith)
      simp [h2.1, h2.2, h3, h4]
  · have b2 : ¬(y < py ∧ py ≤ y + h ∧ px ≤ x + w) := fun hb => h2 ⟨hb.1, hb.2.1⟩
    have b4 : ¬(y < py ∧ py ≤ y + h ∧ px ≤ x) := fun hb => h2 ⟨hb.1, hb.2.1⟩
    have c : ¬(x < px ∧ px ≤ x + w ∧ y < py ∧ py ≤ y + h) :=
      fun hb => h2 ⟨hb.2.2.1, hb.2.2.2⟩
    simp [b2, b4, c]

theorem closest_fold_spec (hand : Detection) :
    ∀ (ss : List Detection) (b : ℚ),
      ∃ c, ss.foldl
          (fun best scooper =>
            let d := calculate_distance_sq hand.center scooper.center
            match best with
            | none => some d
            | some b' => if d < b' then some d else some b') (some b) = some c
        ∧ c ≤ b
        ∧ (∀ s ∈ ss, c ≤ calculate_distance_sq hand.center s.center)
        ∧ (c = b ∨ ∃ s ∈ ss, c = calculate_distance_sq hand.center s.center) := by
  intro ss
  induction ss with
  | nil => exact fun b => ⟨b, rfl, le_refl b, by simp, Or.inl rfl⟩
  | cons s t ih =>
      intro b
      by_cases hd : calculate_distance_sq hand.center s.center < b
      · obtain ⟨c, hc, hcb, hall, hor⟩ := ih (calculate_distance_sq hand.center s.center)
        refine ⟨c, ?_, ?_, ?_, ?_⟩
        · simpa [hd] using hc
        · linarith
        · intro s' hs'
          rcases List.mem_cons.mp hs' with h | h
          · rw [h]; exact hcb
          · exact hall s' h
        · rcases hor with h | ⟨s', hs', he⟩
          · exact Or.inr ⟨s, List.mem_cons_self s t, h⟩
          · exact Or.inr ⟨s', List.mem_cons_of_mem s hs', he⟩
      · obtain ⟨c, hc, hcb, hall, hor⟩ := ih b
        refine ⟨c, ?_, hcb, ?_, ?_⟩
        · simpa [hd] using hc
        · intro s' hs'
          rcases List.mem_cons.mp hs' with h | h
          · rw [h]
            have := not_lt.mp hd
            linarith
          · exact hall s' h
        · rcases hor with h | ⟨s', hs', he⟩
          · exact Or.inl h
          · exact Or.inr ⟨s', List.mem_cons_of_mem s hs', he⟩

theorem closest_scooper_spec (hand s0 : Detection) (t : List Detection) :
    ∃ c, closest_scooper_distance_sq hand (s0 :: t) = some c
      ∧ (∀ s ∈ s0 :: t, c ≤ calculate_distance_sq hand.center s.center)
      ∧ (∃ s ∈ s0 :: t, c = calculate_distance_sq hand.center s.center) := by
  obtain ⟨c, hc, hcb, hall, hor⟩ :=
    closest_fold_spec hand t (calculate_distance_sq hand.center s0.center)
  refine ⟨c, ?_, ?_, ?_⟩
  · simpa [closest_scooper_distance_sq] using hc
  · intro s hs
    rcases List.mem_cons.mp hs with h | h
    · rw [h]; exact hcb
    · exact hall s h
  · rcases hor with h | ⟨s', hs', he⟩
    · exact ⟨s0, List.mem_cons_self s0 t, h⟩
    · exact ⟨s', List.mem_cons_of_mem s0 hs', he⟩

/-- C4: the simple (default) scooper-usage classifier returns false when no
scooper is detected; otherwise the distance it compares is the minimum
hand-center-to-scooper-center distance (squared here), and the verdict is
true at and below 50 px, equal to the nearby-fallback switch strictly
between 50 px and 100 px, and false above 100 px. -/
theorem simple_classifier_tiers (hand : Detection) (scoopers : List Detection)
    (allow_nearby : Bool) :
    (scoopers = [] → is_hand_using_scooper_simple hand scoopers allow_nearby = false)
    ∧ (∀ c, closest_scooper_distance_sq hand scoopers = some c →
        ((∀ s ∈ scoopers, c ≤ calculate_distance_sq hand.center s.center)
          ∧ (∃ s ∈ scoopers, c = calculate_distance_sq hand.center s.center)
          ∧ (c ≤ 50 ^ 2 → is_hand_using_scooper_simple hand scoopers allow_nearby = true)
          ∧ (50 ^ 2 < c → c ≤ 100 ^ 2 →
              is_hand_using_scooper_simple hand scoopers allow_nearby = allow_nearby)
          ∧ (100 ^ 2 < c →
              is_hand_using_scooper_simple hand scoopers allow_nearby = false))) := by
  constructor
  · intro h
    rw [h]
    rfl
  · intro c hc
    have hmin : (∀ s ∈ scoopers, c ≤ calculate_distance_sq hand.center s.center)
        ∧ (∃ s ∈ scoopers, c = calculate_distance_sq hand.center s.center) := by
      cases scoopers with
      | nil => simp [closest_scooper_distance_sq] at hc
      | cons s0 t =>
          obtain ⟨c', hc', hall, hex⟩ := closest_scooper_spec hand s0 t
          rw [hc] at hc'
          cases hc'
          exact ⟨hall, hex⟩
    refine ⟨hmin.1, hmin.2, ?_, ?_, ?_⟩
    · intro h1
      simp [is_hand_using_scooper_simple, hc, h1]
    · intro h1 h2
      simp [is_hand_using_scooper_simple, hc, not_le.mpr h1, h2]
    · intro h1
      have h2 : ¬(c ≤ 50 ^ 2) := by linarith
      have h3 : ¬(c ≤ 100 ^ 2) := by linarith
      simp [is_hand_using_scooper_simple, hc, h2, h3]

/-- Witness for simple_classifier_tiers at a concrete frame: one scooper at
squared distance 25 from the hand, inside the 50 px tier. -/
theorem simple_classifier_tiers_witness :
    is_hand_using_scooper_simple ⟨"hand", 1, [("x1", 0)], ⟨0, 0⟩, 0⟩
      [⟨"scooper", 1, [("x1", 0)], ⟨3, 4⟩, 0⟩] true = true := by
  have hc : closest_scooper_distance_sq ⟨"hand", 1, [("x1", 0)], ⟨0, 0⟩, 0⟩
      [⟨"scooper", 1, [("x1", 0)], ⟨3, 4⟩, 0⟩] = some 25 := by
    norm_num [closest_scooper_distance_sq, calculate_distance_sq]
  exact ((simple_classifier_tiers ⟨"hand", 1, [("x1", 0)], ⟨0, 0⟩, 0⟩
      [⟨"scooper", 1, [("x1", 0)], ⟨3, 4⟩, 0⟩] true).2 25 hc).2.2.1 (by norm_num)

/-- C6: hand-in-ROI is decided by containment of the hand's center point
only: a rectangle ROI by closed axis-aligned inclusion of the center, a
polygon ROI by the even-odd ray-casting test on the vertex list, and every
degenerate polygon with fewer than 3 vertices contains no point. -/
theorem roi_containment_spec :
    (∀ (d : Detection) (roi : ROI) (rx ry w h : ℚ),
        roi.shape = "rectangle" → roi.x = some rx → roi.y = some ry →
        roi.width = some w → roi.height = some h → d.bbox ≠ [] →
        (is_in_roi d roi = true ↔
          (rx ≤ d.center.x ∧ d.center.x ≤ rx + w ∧
           ry ≤ d.center.y ∧ d.center.y ≤ ry + h)))
    ∧ (∀ (d : Detection) (roi : ROI) (pts : List Pt),
        roi.shape = "polygon" → roi.points = some pts → pts ≠ [] → d.bbox ≠ [] →
        is_in_roi d roi = point_in_polygon d.center.x d.center.y pts)
    ∧ (∀ (x y : ℚ) (pts : List Pt), pts.length < 3 →
        point_in_polygon x y pts = false) := by
  refine ⟨?_, ?_, ?_⟩
  · intro d roi rx ry w h hs hx hy hw hh hbb
    simp [is_in_roi, hs, hx, hy, hw, hh, hbb]
  · intro d roi pts hs hp hpts hbb
    have hne : ("polygon" : String) ≠ "rectangle" := by decide
    simp [is_in_roi, hs, hp, hpts, hbb, hne]
  · intro x y pts h
    exact point_in_polygon_degenerate x y pts h

/-- Witness for roi_containment_spec: a concrete rectangle query and a
concrete 2-vertex degenerate polygon. -/
theorem roi_containment_spec_witness :
    (is_in_roi ⟨"hand", 1, [("x1", 0)], ⟨1, 1⟩, 0⟩
        ⟨"r", "rectangle", "i", true, some 0, some 0, some 2, some 2, none⟩ = true ↔
      ((0 : ℚ) ≤ 1 ∧ (1 : ℚ) ≤ 0 + 2 ∧ (0 : ℚ) ≤ 1 ∧ (1 : ℚ) ≤ 0 + 2))
    ∧ point_in_polygon 5 5 [⟨0, 0⟩, ⟨10, 0⟩] = false :=
  ⟨roi_containment_spec.1 ⟨"hand", 1, [("x1", 0)], ⟨1, 1⟩, 0⟩
      ⟨"r", "rectangle", "i", true, some 0, some 0, some 2, some 2, none⟩
      0 0 2 2 rfl rfl rfl rfl rfl (by decide),
   roi_containment_spec.2.2 5 5 [⟨0, 0⟩, ⟨10, 0⟩] (by decide)⟩

/-- C7 counterexample: the point (1, 0) lies on the bottom edge of the
rectangle with corner (0, 0) and extents 2 x 2; the rectangle containment
test accepts it while the ray-casting test on the same rectangle expressed
as a 4-vertex polygon rejects it, so the two tests do not agree on every
point. -/
theorem rect_vs_polygon_boundary_disagrees :
    is_in_roi ⟨"hand", 1, [("x1", 0)], ⟨1, 0⟩, 0⟩
        ⟨"r", "rectangle", "i", true, some 0, some 0, some 2, some 2, none⟩ = true
    ∧ is_in_roi ⟨"hand", 1, [("x1", 0)], ⟨1, 0⟩, 0⟩
        ⟨"r", "polygon", "i", true, none, none, none, none,
          some (rect_polygon 0 0 2 2)⟩ = false := by
  constructor
  · simp [is_in_roi]
  · have hne : ("polygon" : String) ≠ "rectangle" := by decide
    have hnil : rect_polygon 0 0 2 2 ≠ [] := by simp [rect_polygon]
    have hfalse : ¬((0 : ℚ) < 1 ∧ (1 : ℚ) ≤ 0 + 2 ∧ (0 : ℚ) < 0 ∧ (0 : ℚ) ≤ 0 + 2) := by
      rintro ⟨-, -, hbad, -⟩
      exact lt_irrefl 0 hbad
    have hval : point_in_polygon 1 0 (rect_polygon 0 0 2 2) = false := by
      rw [point_in_rect_polygon 0 0 2 2 1 0 (by norm_num) (by norm_num)]
      simp [hfalse]
    simp [is_in_roi, hne, hnil, hval]

theorem is_in_roi_rectangle_eq (nm it : String) (rs : Bool) (d : Detection)
    (x y w h : ℚ) (hbb : d.bbox ≠ []) :
    is_in_roi d ⟨nm, "rectangle", it, rs, some x, some y, some w, some h, none⟩
      = decide (x ≤ d.center.x ∧ d.center.x ≤ x + w ∧
                y ≤ d.center.y ∧ d.center.y ≤ y + h) := by
  simp [is_in_roi, hbb]

theorem is_in_roi_rect_polygon_eq (nm it : String) (rs : Bool) (d : Detection)
    (x y w h : ℚ) (hbb : d.bbox ≠ []) :
    is_in_roi d ⟨nm, "polygon", it, rs, none, none, none, none,
        some (rect_polygon x y w h)⟩
      = point_in_polygon d.center.x d.center.y (rect_polygon x y w h) := by
  have hne : ("polygon" : String) ≠ "rectangle" := by decide
  simp [is_in_roi, hbb, hne, rect_polygon]

/-- C7 (amended): at every point not on the left or bottom edge segment of
the closed rectangle the two containment tests agree, and at every point of
those two edge segments the rectangle test reports inside while the
ray-casting test reports outside: the ray cast realizes half-open
containment while the rectangle test is closed on all sides.  A point lies
on the left or bottom edge segment exactly when it is in the closed
rectangle with center.x = x or center.y = y. -/
theorem rect_and_polygon_containment_agree :
    (∀ (nm it : String) (rs : Bool) (d : Detection) (x y w h : ℚ),
        d.bbox ≠ [] → 0 < w → 0 < h →
        ¬((x ≤ d.center.x ∧ d.center.x ≤ x + w ∧
           y ≤ d.center.y ∧ d.center.y ≤ y + h)
          ∧ (d.center.x = x ∨ d.center.y = y)) →
        is_in_roi d ⟨nm, "rectangle", it, rs, some x, some y, some w, some h, none⟩
          = is_in_roi d ⟨nm, "polygon", it, rs, none, none, none, none,
              some (rect_polygon x y w h)⟩)
    ∧ (∀ (nm it : String) (rs : Bool) (d : Detection) (x y w h : ℚ),
        d.bbox ≠ [] → 0 < w → 0 < h →
        (x ≤ d.center.x ∧ d.center.x ≤ x + w ∧
         y ≤ d.center.y ∧ d.center.y ≤ y + h) →
        (d.center.x = x ∨ d.center.y = y) →
        is_in_roi d ⟨nm, "rectangle", it, rs, some x, some y, some w, some h, none⟩
            = true
        ∧ is_in_roi d ⟨nm, "polygon", it, rs, none, none, none, none,
            some (rect_polygon x y w h)⟩ = false) := by
  constructor
  · intro nm it rs d x y w h hbb hw hh hedge
    rw [is_in_roi_rectangle_eq nm it rs d x y w h hbb,
      is_in_roi_rect_polygon_eq nm it rs d x y w h hbb,
      point_in_rect_polygon x y w h d.center.x d.center.y hw hh, decide_eq_decide]
    constructor
    · rintro ⟨a1, a2, a3, a4⟩
      have hne : ¬(d.center.x = x ∨ d.center.y = y) :=
        fun hc => hedge ⟨⟨a1, a2, a3, a4⟩, hc⟩
      push_neg at hne
      exact ⟨lt_of_le_of_ne a1 (Ne.symm hne.1), a2,
        lt_of_le_of_ne a3 (Ne.symm hne.2), a4⟩
    · rintro ⟨a1, a2, a3, a4⟩
      exact ⟨le_of_lt a1, a2, le_of_lt a3, a4⟩
  · intro nm it rs d x y w h hbb hw hh hin hedge
    constructor
    · rw [is_in_roi_rectangle_eq nm it rs d x y w h hbb]
      exact decide_eq_true hin
    · rw [is_in_roi_rect_polygon_eq nm it rs d x y w h hbb,
        point_in_rect_polygon x y w h d.center.x d.center.y hw hh]
      have hB : ¬(x < d.center.x ∧ d.center.x ≤ x + w ∧
          y < d.center.y ∧ d.center.y ≤ y + h) := by
        rintro ⟨b1, -, b3, -⟩
        rcases hedge with hc | hc
        · exact absurd hc (ne_of_gt b1)
        · exact absurd hc (ne_of_gt b3)
      exact decide_eq_false hB

/-- Witness for rect_and_polygon_containment_agree at the interior point
(1, 1) and at the bottom-edge point (2, 0) of the 2 x 2 rectangle at the
origin. -/
theorem rect_and_polygon_containment_agree_witness :
    (is_in_roi ⟨"hand", 1, [("x1", 0)], ⟨1, 1⟩, 0⟩
        ⟨"r", "rectangle", "i", true, some 0, some 0, some 2, some 2, none⟩
      = is_in_roi ⟨"hand", 1, [("x1", 0)], ⟨1, 1⟩, 0⟩
          ⟨"r", "polygon", "i", true, none, none, none, none,
            some (rect_polygon 0 0 2 2)⟩)
    ∧ (is_in_roi ⟨"hand", 1, [("x1", 0)], ⟨2, 0⟩, 0⟩
        ⟨"r", "rectangle", "i", true, some 0, some 0, some 2, some 2, none⟩ = true
      ∧ is_in_roi ⟨"hand", 1, [("x1", 0)], ⟨2, 0⟩, 0⟩
          ⟨"r", "polygon", "i", true, none, none, none, none,
            some (rect_polygon 0 0 2 2)⟩ = false) :=
  ⟨rect_and_polygon_containment_agree.1 "r" "i" true
      ⟨"hand", 1, [("x1", 0)], ⟨1, 1⟩, 0⟩ 0 0 2 2
      (by decide) (by norm_num) (by norm_num) (by norm_num),
   rect_and_polygon_containment_agree.2 "r" "i" true
      ⟨"hand", 1, [("x1", 0)], ⟨2, 0⟩, 0⟩ 0 0 2 2
      (by decide) (by norm_num) (by norm_num) (by norm_num) (Or.inr rfl)⟩

theorem closest_worker_fold_good (hand : Detection) :
    ∀ (l : List (Nat × Detection)) (acc : Option (ℚ × Nat)),
      (∀ mw, acc = some mw → mw.1 < 150 ^ 2) →
      ((l.foldl (closest_worker_step hand) acc = none →
          acc = none
          ∧ ∀ q ∈ l, ¬(calculate_distance_sq hand.center q.2.center < 150 ^ 2))
        ∧ (∀ m w, l.foldl (closest_worker_step hand) acc = some (m, w) →
            m < 150 ^ 2
            ∧ (∀ q ∈ l, m ≤ calculate_distance_sq hand.center q.2.center)
            ∧ (acc = some (m, w) ∨
                ∃ q ∈ l, q.1 + 1 = w ∧ calculate_distance_sq hand.center q.2.center = m)
            ∧ (∀ mw0, acc = some mw0 → m ≤ mw0.1))) := by
  intro l
  induction l with
  | nil =>
      intro acc hacc
      constructor
      · intro h
        exact ⟨h, by simp⟩
      · intro m w h
        refine ⟨hacc (m, w) h, by simp, Or.inl h, ?_⟩
        intro mw0 h0
        rw [h0] at h
        injection h with h1
        rw [h1]
  | cons q t ih =>
      intro acc hacc
      cases acc with
      | none =>
          by_cases hq : calculate_distance_sq hand.center q.2.center < 150 ^ 2
          · have hstep : closest_worker_step hand none q
                = some (calculate_distance_sq hand.center q.2.center, q.1 + 1) := by
              simp [closest_worker_step, hq]
            have hinv : ∀ mw, closest_worker_step hand none q = some mw → mw.1 < 150 ^ 2 := by
              intro mw h
              rw [hstep] at h
              injection h with h1
              rw [← h1]
              exact hq
            obtain ⟨ihn, ihs⟩ := ih (closest_worker_step hand none q) hinv
            constructor
            · intro h
              rw [List.foldl_cons] at h
              obtain ⟨hnone, -⟩ := ihn h
              rw [hstep] at hnone
              exact Option.noConfusion hnone
            · intro m w h
              rw [List.foldl_cons] at h
              obtain ⟨hm, hall, horig, hmono⟩ := ihs m w h
              refine ⟨hm, ?_, ?_, ?_⟩
              · intro q' hq'
                rcases List.mem_cons.mp hq' with hh | hh
                · rw [hh]
                  exact hmono _ hstep
                · exact hall q' hh
              · rcases horig with hh | ⟨q', hq', he⟩
                · rw [hstep] at hh
                  injection hh with h1
                  rw [Prod.mk.injEq] at h1
                  exact Or.inr ⟨q, List.mem_cons_self q t, h1.2, h1.1⟩
                · exact Or.inr ⟨q', List.mem_cons_of_mem q hq', he⟩
              · intro mw0 h0
                exact Option.noConfusion h0
          · have hstep : closest_worker_step hand none q = none := by
              simp [closest_worker_step, hq]
            obtain ⟨ihn, ihs⟩ := ih none (fun mw h => Option.noConfusion h)
            constructor
            · intro h
              rw [List.foldl_cons, hstep] at h
              obtain ⟨-, hallt⟩ := ihn h
              refine ⟨rfl, ?_⟩
              intro q' hq'
              rcases List.mem_cons.mp hq' with hh | hh
              · rw [hh]
                exact hq
              · exact hallt q' hh
            · intro m w h
              rw [List.foldl_cons, hstep] at h
              obtain ⟨hm, hall, horig, -⟩ := ihs m w h
              refine ⟨hm, ?_, ?_, ?_⟩
              · intro q' hq'
                rcases List.mem_cons.mp hq' with hh | hh
                · rw [hh]
                  have := not_lt.mp hq
                  linarith
                · exact hall q' hh
              · rcases horig with hh | ⟨q', hq', he⟩
                · exact Option.noConfusion hh
                · exact Or.inr ⟨q', List.mem_cons_of_mem q hq', he⟩
              · intro mw0 h0
                exact Option.noConfusion h0
      | some mw0 =>
          obtain ⟨m0, w0⟩ := mw0
          have hm0 : m0 < 150 ^ 2 := hacc (m0, w0) rfl
          by_cases hq : calculate_distance_sq hand.center q.2.center < m0
              ∧ calculate_distance_sq hand.center q.2.center < 150 ^ 2
          · have hstep : closest_worker_step hand (some (m0, w0)) q
                = some (calculate_distance_sq hand.center q.2.center, q.1 + 1) := by
              simp [closest_worker_step, hq]
            have hinv : ∀ mw, closest_worker_step hand (some (m0, w0)) q = some mw
                → mw.1 < 150 ^ 2 := by
              intro mw h
              rw [hstep] at h
              injection h with h1
              rw [← h1]
              exact hq.2
            obtain ⟨ihn, ihs⟩ := ih (closest_worker_step hand (some (m0, w0)) q) hinv
            constructor
            · intro h
              rw [List.foldl_cons] at h
              obtain ⟨hnone, -⟩ := ihn h
              rw [hstep] at hnone
              exact Option.noConfusion hnone
            · intro m w h
              rw [List.foldl_cons] at h
              obtain ⟨hm, hall, horig, hmono⟩ := ihs m w h
              have hmd : m ≤ calculate_distance_sq hand.center q.2.center := hmono _ hstep
              refine ⟨hm, ?_, ?_, ?_⟩
              · intro q' hq'
                rcases List.mem_cons.mp hq' with hh | hh
                · rw [hh]
                  exact hmd
                · exact hall q' hh
              · rcases horig with hh | ⟨q', hq', he⟩
                · rw [hstep] at hh
                  injection hh with h1
                  rw [Prod.mk.injEq] at h1
                  exact Or.inr ⟨q, List.mem_cons_self q t, h1.2, h1.1⟩
                · exact Or.inr ⟨q', List.mem_cons_of_mem q hq', he⟩
              · intro mw1 h0
                injection h0 with h1
                rw [← h1]
                have := hq.1
                linarith
          · have hstep : closest_worker_step hand (some (m0, w0)) q = some (m0, w0) := by
              simp [closest_worker_step, hq]
            have hinv : ∀ mw, closest_worker_step hand (some (m0, w0)) q = some mw
                → mw.1 < 150 ^ 2 := by
              intro mw h
              rw [hstep] at h
              injection h with h1
              rw [← h1]
              exact hm0
            obtain ⟨ihn, ihs⟩ := ih (closest_worker_step hand (some (m0, w0)) q) hinv
            constructor
            · intro h
              rw [List.foldl_cons] at h
              obtain ⟨hnone, -⟩ := ihn h
              rw [hstep] at hnone
              exact Option.noConfusion hnone
            · intro m w h
              rw [List.foldl_cons] at h
              obtain ⟨hm, hall, horig, hmono⟩ := ihs m w h
              have hmm0 : m ≤ m0 := by
                have := hmono (m0, w0) hstep
                exact this
              refine ⟨hm, ?_, ?_, ?_⟩
              · intro q' hq'
                rcases List.mem_cons.mp hq' with hh | hh
                · rw [hh]
                  rcases not_and_or.mp hq with hc | hc
                  · have := not_lt.mp hc
                    linarith
                  · have := not_lt.mp hc
                    linarith
                · exact hall q' hh
              · rcases horig with hh | ⟨q', hq', he⟩
                · rw [hstep] at hh
                  exact Or.inl hh
                · exact Or.inr ⟨q', List.mem_cons_of_mem q hq', he⟩
              · intro mw1 h0
                injection h0 with h1
                rw [← h1]
                exact hmm0

theorem closest_worker_spec (hand : Detection) (persons : List Detection) :
    (closest_worker hand persons = none →
      ∀ p ∈ persons, ¬(calculate_distance_sq hand.center p.center < 150 ^ 2))
    ∧ (∀ m w, closest_worker hand persons = some (m, w) →
        m < 150 ^ 2 ∧ 1 ≤ w
        ∧ (∀ p ∈ persons, m ≤ calculate_distance_sq hand.center p.center)
        ∧ ∃ pw, persons[w - 1]? = some pw
            ∧ calculate_distance_sq hand.center pw.center = m) := by
  obtain ⟨hn, hs⟩ :=
    closest_worker_fold_good hand persons.enum none (fun mw h => Option.noConfusion h)
  constructor
  · intro h p hp
    obtain ⟨-, hall⟩ := hn h
    obtain ⟨i, hi, rfl⟩ := List.getElem_of_mem hp
    exact hall (i, persons[i])
      (List.mk_mem_enum_iff_getElem?.mpr (List.getElem?_eq_getElem hi))
  · intro m w h
    obtain ⟨hm, hall, horig, -⟩ := hs m w h
    rcases horig with hh | ⟨q, hq, hw, hd⟩
    · exact Option.noConfusion hh
    · have hget : persons[q.1]? = some q.2 := List.mk_mem_enum_iff_getElem?.mp hq
      refine ⟨hm, by omega, ?_, ⟨q.2, ?_, hd⟩⟩
      · intro p hp
        obtain ⟨i, hi, rfl⟩ := List.getElem_of_mem hp
        exact hall (i, persons[i])
          (List.mk_mem_enum_iff_getElem?.mpr (List.getElem?_eq_getElem hi))
      · have hq1 : w - 1 = q.1 := by omega
        rw [hq1]
        exact hget

theorem lookupN_append_single_ne {α : Type} (acc : List (Nat × α)) (j i : Nat)
    (w : α) (h : j ≠ i) : lookupN (acc ++ [(j, w)]) i = lookupN acc i := by
  induction acc with
  | nil => simp [lookupN, h]
  | cons kv t ih => by_cases hk : kv.1 = i <;> simp [lookupN, hk, ih]

theorem lookupN_append_single_self {α : Type} (acc : List (Nat × α)) (i : Nat)
    (w : α) (h : lookupN acc i = none) : lookupN (acc ++ [(i, w)]) i = some w := by
  induction acc with
  | nil => simp [lookupN]
  | cons kv t ih =>
      by_cases hk : kv.1 = i
      · simp [lookupN, hk] at h
      · have h' : lookupN t i = none := by
          simpa [lookupN, hk] using h
        rw [List.cons_append]
        simpa [lookupN, hk] using ih h'

theorem assoc_fold_lookup_frozen (persons : List Detection) :
    ∀ (l : List (Nat × Detection)) (acc : List (Nat × Nat)) (i : Nat),
      (∀ q ∈ l, q.1 ≠ i) →
      lookupN (l.foldl (associate_step persons) acc) i = lookupN acc i := by
  intro l
  induction l with
  | nil => intro acc i _; rfl
  | cons q t ih =>
      intro acc i h
      have hq : q.1 ≠ i := h q (List.mem_cons_self q t)
      have ht : ∀ q' ∈ t, q'.1 ≠ i := fun q' hq' => h q' (List.mem_cons_of_mem q hq')
      rw [List.foldl_cons, ih _ i ht]
      rcases hcw : closest_worker q.2 persons with _ | mw
      · simp [associate_step, hcw]
      · simp only [associate_step, hcw]
        exact lookupN_append_single_ne acc q.1 i mw.2 hq

theorem assoc_fold_lookup (persons : List Detection) :
    ∀ (l : List (Nat × Detection)) (acc : List (Nat × Nat)) (i : Nat) (hand : Detection),
      (l.map Prod.fst).Nodup →
      (i, hand) ∈ l →
      lookupN acc i = none →
      lookupN (l.foldl (associate_step persons) acc) i
        = Option.map Prod.snd (closest_worker hand persons) := by
  intro l
  induction l with
  | nil =>
      intro acc i hand _ hmem _
      simp at hmem
  | cons q t ih =>
      intro acc i hand hnodup hmem hacc
      rw [List.map_cons] at hnodup
      obtain ⟨hnotin, hnd⟩ := List.nodup_cons.mp hnodup
      rw [List.foldl_cons]
      rcases List.mem_cons.mp hmem with hh | hh
      · have hq1 : q.1 = i := by rw [← hh]
        have hq2 : q.2 = hand := by rw [← hh]
        have hfrozen : ∀ q' ∈ t, q'.1 ≠ i := by
          intro q' hq' heq
          apply hnotin
          rw [hq1, ← heq]
          exact List.mem_map_of_mem Prod.fst hq'
        rw [assoc_fold_lookup_frozen persons t _ i hfrozen, ← hq2]
        rcases hcw : closest_worker q.2 persons with _ | mw
        · simp only [associate_step, hcw, Option.map_none']
          exact hacc
        · simp only [associate_step, hcw, Option.map_some']
          rw [hq1]
          exact lookupN_append_single_self acc i mw.2 hacc
      · have hq1 : q.1 ≠ i := by
          intro heq
          apply hnotin
          rw [heq]
          exact List.mem_map_of_mem Prod.fst hh
        have hacc' : lookupN (associate_step persons acc q) i = none := by
          rcases hcw : closest_worker q.2 persons with _ | mw
          · simpa [associate_step, hcw] using hacc
          · simp only [associate_step, hcw]
            rw [lookupN_append_single_ne acc q.1 i mw.2 hq1]
            exact hacc
        exact ih _ i hand hnd hh hacc'

/-- C5 (amended): each hand is associated with the person minimizing the
center distance, provided that distance is strictly below 150 px (the source
tests distance < 150, so a person at exactly 150 px is rejected); if no
person is strictly within 150 px, or no persons are detected, the hand is
unassigned; assigned worker ids are 1-based indices over the frame's person
detections. -/
theorem hand_worker_association_spec (hands persons : List Detection) (i : Nat)
    (hand : Detection) (hget : hands[i]? = some hand) :
    ((∀ p ∈ persons, ¬(calculate_distance_sq hand.center p.center < 150 ^ 2)) →
      lookupN (associate_hands_with_workers hands persons) i = none)
    ∧ ((∃ p ∈ persons, calculate_distance_sq hand.center p.center < 150 ^ 2) →
      ∃ w pw, lookupN (associate_hands_with_workers hands persons) i = some w
        ∧ 1 ≤ w ∧ persons[w - 1]? = some pw
        ∧ calculate_distance_sq hand.center pw.center < 150 ^ 2
        ∧ ∀ p ∈ persons,
            calculate_distance_sq hand.center pw.center
              ≤ calculate_distance_sq hand.center p.center) := by
  by_cases hp : persons = []
  · subst hp
    constructor
    · intro _
      simp [associate_hands_with_workers, lookupN]
    · rintro ⟨p, hpmem, -⟩
      simp at hpmem
  · have hassoc : associate_hands_with_workers hands persons
        = hands.enum.foldl (associate_step persons) [] := by
      simp [associate_hands_with_workers, hp]
    have hmem : (i, hand) ∈ hands.enum := List.mk_mem_enum_iff_getElem?.mpr hget
    have hlookup : lookupN (associate_hands_with_workers hands persons) i
        = Option.map Prod.snd (closest_worker hand persons) := by
      rw [hassoc]
      exact assoc_fold_lookup persons hands.enum [] i hand
        (List.nodup_enum_map_fst hands) hmem rfl
    obtain ⟨hwnone, hwsome⟩ := closest_worker_spec hand persons
    constructor
    · intro hall
      rcases hcw : closest_worker hand persons with _ | ⟨m, w⟩
      · rw [hlookup, hcw]
        rfl
      · obtain ⟨hm, -, -, pw, hpw, hd⟩ := hwsome m w hcw
        have hmem_pw : pw ∈ persons := by
          obtain ⟨hlt, rfl⟩ := List.getElem?_eq_some.mp hpw
          exact List.getElem_mem hlt
        have hqual : calculate_distance_sq hand.center pw.center < 150 ^ 2 := by
          rw [hd]
          exact hm
        exact absurd hqual (hall pw hmem_pw)
    · rintro ⟨p, hpmem, hpd⟩
      rcases hcw : closest_worker hand persons with _ | ⟨m, w⟩
      · exact absurd hpd (hwnone hcw p hpmem)
      · obtain ⟨hm, hw1, hall, pw, hpw, hd⟩ := hwsome m w hcw
        refine ⟨w, pw, ?_, hw1, hpw, ?_, ?_⟩
        · rw [hlookup, hcw]
          rfl
        · rw [hd]
          exact hm
        · intro p' hp'
          rw [hd]
          exact hall p' hp'

/-- Witness for hand_worker_association_spec: one hand at the origin, one
person 10 px away, associated as worker 1. -/
theorem hand_worker_association_spec_witness :
    lookupN (associate_hands_with_workers
        [⟨"hand", 1, [("x1", 0)], ⟨0, 0⟩, 0⟩]
        [⟨"person", 1, [("x1", 0)], ⟨10, 0⟩, 0⟩]) 0 = some 1 := by
  obtain ⟨w, pw, hl, hw1, hpw, -, -⟩ :=
    (hand_worker_association_spec
        [⟨"hand", 1, [("x1", 0)], ⟨0, 0⟩, 0⟩]
        [⟨"person", 1, [("x1", 0)], ⟨10, 0⟩, 0⟩]
        0 ⟨"hand", 1, [("x1", 0)], ⟨0, 0⟩, 0⟩ rfl).2
      ⟨⟨"person", 1, [("x1", 0)], ⟨10, 0⟩, 0⟩, by simp,
        by norm_num [calculate_distance_sq]⟩
  have hwlt : w - 1 < 1 := by
    have h1 := (List.getElem?_eq_some.mp hpw).1
    simpa using h1
  have hw : w = 1 := by omega
  rw [hl, hw]

/-- C5 counterexample: a person whose center is at exactly 150 px from the
hand is NOT associated, although the claim's threshold of at-most-150 px
would assign it worker 1. -/
theorem association_at_150px_unassigned :
    associate_hands_with_workers [⟨"hand", 1, [("x1", 0)], ⟨0, 0⟩, 0⟩]
        [⟨"person", 1, [("x1", 0)], ⟨150, 0⟩, 0⟩] = []
    ∧ calculate_distance_sq (⟨0, 0⟩ : Pt) ⟨150, 0⟩ = 150 ^ 2 := by
  constructor
  · norm_num [associate_hands_with_workers, associate_step, closest_worker,
      closest_worker_step, List.enum, List.enumFrom, calculate_distance_sq]
  · norm_num [calculate_distance_sq]

theorem process_obs_not_in_roi (st : DetectorState) (now : ℚ) (frame_id : String)
    (o : Obs) (hroi : o.in_roi = false) :
    process_obs st now frame_id o = (check_sequence_completion st o.key frame_id now, []) := by
  simp [process_obs, hroi]

theorem process_obs_no_emit (st : DetectorState) (now : ℚ) (frame_id : String)
    (o : Obs) (hroi : o.in_roi = true)
    (hg : ((lookupS st.active_sequences o.key).isNone
        && should_create_sequence_violation st o.key now o.using_scooper) = false) :
    process_obs st now frame_id o
      = (update_roi_sequence st o.hand_id o.roi_name frame_id o.hand_position
           o.using_scooper o.scooper_distance o.worker_id now, []) := by
  simp [process_obs, hroi, hg]

theorem process_obs_emit (st : DetectorState) (now : ℚ) (frame_id : String)
    (o : Obs) (hroi : o.in_roi = true)
    (hg : ((lookupS st.active_sequences o.key).isNone
        && should_create_sequence_violation st o.key now o.using_scooper) = true) :
    process_obs st now frame_id o
      = (update_roi_sequence
           (mark_sequence_as_violation { st with violation_count := st.violation_count + 1 }
             o.key ("violation_" ++ toString (st.violation_count + 1) ++ "_" ++ frame_id) now)
           o.hand_id o.roi_name frame_id o.hand_position
           o.using_scooper o.scooper_distance o.worker_id now,
         [{ violation_id := "violation_" ++ toString (st.violation_count + 1) ++ "_" ++ frame_id,
            frame_id := frame_id, time := now,
            violation_type := ViolationType.HAND_WITHOUT_SCOOPER,
            description := "Hand in " ++ o.roi_name ++ " without scooper (complete sequence)",
            confidence := o.confidence, worker_id := o.worker_id,
            roi_name := o.roi_name, severity := "high", sequence_key := o.key }]) := by
  simp [process_obs, hroi, hg, create_violation]

theorem update_roi_sequence_sv (st : DetectorState) (hand_id roi_name frame_id : String)
    (p : Pt) (us : Bool) (sd : Option ℚ) (wid : Option Nat) (now : ℚ) :
    (update_roi_sequence st hand_id roi_name frame_id p us sd wid now).sequence_violations
      = st.sequence_violations := by
  dsimp only [update_roi_sequence]
  split <;> rfl

theorem update_roi_sequence_ts (st : DetectorState) (hand_id roi_name frame_id : String)
    (p : Pt) (us : Bool) (sd : Option ℚ) (wid : Option Nat) (now : ℚ) :
    (update_roi_sequence st hand_id roi_name frame_id p us sd wid now).violation_timestamps
      = st.violation_timestamps := by
  dsimp only [update_roi_sequence]
  split <;> rfl

theorem update_roi_sequence_active (st : DetectorState)
    (hand_id roi_name frame_id : String) (p : Pt) (us : Bool) (sd : Option ℚ)
    (wid : Option Nat) (now : ℚ) (k : String) (hk : k ≠ hand_id ++ "_" ++ roi_name) :
    lookupS (update_roi_sequence st hand_id roi_name frame_id p us sd wid now).active_sequences k
      = lookupS st.active_sequences k := by
  dsimp only [update_roi_sequence]
  split <;> exact lookupS_insertS_ne _ _ _ _ hk

theorem mark_sequence_active (st : DetectorState) (sk vid : String) (now : ℚ) :
    (mark_sequence_as_violation st sk vid now).active_sequences = st.active_sequences := rfl

theorem completion_sv_ne (st : DetectorState) (sk frame_id : String) (now : ℚ)
    (k : String) (hk : k ≠ sk) :
    lookupS (check_sequence_completion st sk frame_id now).sequence_violations k
      = lookupS st.sequence_violations k := by
  unfold check_sequence_completion
  split
  · rfl
  · exact lookupS_eraseS_ne _ _ _ hk

theorem completion_active_ne (st : DetectorState) (sk frame_id : String) (now : ℚ)
    (k : String) (hk : k ≠ sk) :
    lookupS (check_sequence_completion st sk frame_id now).active_sequences k
      = lookupS st.active_sequences k := by
  unfold check_sequence_completion
  split
  · rfl
  · exact lookupS_eraseS_ne _ _ _ hk

theorem cleanup_old_sequences_sv (st : DetectorState) (now : ℚ) :
    (cleanup_old_sequences st now).sequence_violations = st.sequence_violations := rfl

theorem cleanup_old_violation_timestamps_sv (st : DetectorState) (now : ℚ) :
    (cleanup_old_violation_timestamps st now).sequence_violations
      = st.sequence_violations := rfl

theorem process_obs_event_fields (st : DetectorState) (now : ℚ) (frame_id : String)
    (o : Obs) :
    ∀ ev ∈ (process_obs st now frame_id o).2,
      ev.violation_type = ViolationType.HAND_WITHOUT_SCOOPER ∧ ev.severity = "high"
      ∧ ev.confidence = o.confidence ∧ ev.sequence_key = Obs.key o ∧ ev.time = now := by
  intro ev hev
  by_cases hroi : o.in_roi
  · by_cases hg : ((lookupS st.active_sequences o.key).isNone
        && should_create_sequence_violation st o.key now o.using_scooper) = true
    · rw [process_obs_emit st now frame_id o hroi hg] at hev
      simp only [List.mem_singleton] at hev
      rw [hev]
      exact ⟨rfl, rfl, rfl, rfl, rfl⟩
    · rw [process_obs_no_emit st now frame_id o hroi (Bool.eq_false_iff.mpr hg)] at hev
      simp at hev
  · rw [process_obs_not_in_roi st now frame_id o (Bool.eq_false_iff.mpr hroi)] at hev
    simp at hev

theorem mark_sequence_sv (st : DetectorState) (sk vid : String) (now : ℚ) :
    (mark_sequence_as_violation st sk vid now).sequence_violations
      = insertS st.sequence_violations sk vid := rfl

/-- C8: after every analysis call the detector state is bounded: the
completed-sequence history holds at most 50 entries, every active sequence
older than the 30-second staleness budget is gone, and every cooldown entry
older than 60 seconds is gone. -/
theorem analysis_call_state_bounds (st : DetectorState) (now : ℚ) (frame_id : String)
    (obs : List Obs) :
    (detect_violations_step st now frame_id obs).1.completed_sequences.length ≤ 50
    ∧ (∀ kv ∈ (detect_violations_step st now frame_id obs).1.active_sequences,
        ¬(now - kv.2.entry_time > 30))
    ∧ (∀ kv ∈ (detect_violations_step st now frame_id obs).1.violation_timestamps,
        ¬(now - kv.2 > 60)) := by
  refine ⟨?_, ?_, ?_⟩
  · show (cleanup_old_sequences
        (obs.foldl (obs_fold_step now frame_id) (st, [])).1 now).completed_sequences.length ≤ 50
    by_cases hlen :
        (obs.foldl (obs_fold_step now frame_id) (st, [])).1.completed_sequences.length > 50
    · simp only [cleanup_old_sequences, hlen, if_true, List.length_drop]
      omega
    · simp only [cleanup_old_sequences, hlen, if_false]
      omega
  · intro kv hkv
    have hkv' : kv ∈ ((cleanup_old_sequences
        (obs.foldl (obs_fold_step now frame_id) (st, [])).1 now).active_sequences) := hkv
    have hp := (List.mem_filter.mp hkv').2
    simpa using hp
  · intro kv hkv
    have hp := (List.mem_filter.mp hkv).2
    simpa using hp

/-- Witness for analysis_call_state_bounds at an empty frame. -/
theorem analysis_call_state_bounds_witness :
    (detect_violations_step initialState 0 "f1" []).1.completed_sequences.length ≤ 50 :=
  (analysis_call_state_bounds initialState 0 "f1" []).1

/-- C9 (amended): the staleness janitor only deletes entries from the
active-sequence map -- it appends nothing to the completed history and
leaves both dedup registries untouched; a sequence_violations entry is
purged only by a normal exit-closure of a sequence for the same key, while a
violation_timestamps entry may additionally be purged by the 60-second
timestamp janitor. -/
theorem stale_janitor_frame_effect :
    (∀ (st : DetectorState) (now : ℚ),
        (cleanup_old_sequences st now).sequence_violations = st.sequence_violations
        ∧ (cleanup_old_sequences st now).violation_timestamps = st.violation_timestamps
        ∧ List.IsSuffix (cleanup_old_sequences st now).completed_sequences
            st.completed_sequences
        ∧ ∀ kv ∈ (cleanup_old_sequences st now).active_sequences,
            kv ∈ st.active_sequences)
    ∧ (∀ (st : DetectorState) (now : ℚ) (frame_id : String) (o : Obs) (k : String),
        (lookupS st.sequence_violations k).isSome = true →
        lookupS (process_obs st now frame_id o).1.sequence_violations k = none →
        Obs.key o = k ∧ o.in_roi = false) := by
  constructor
  · intro st now
    refine ⟨rfl, rfl, ?_, ?_⟩
    · show List.IsSuffix
        (if st.completed_sequences.length > 50
         then st.completed_sequences.drop (st.completed_sequences.length - 50)
         else st.completed_sequences) st.completed_sequences
      by_cases hlen : st.completed_sequences.length > 50
      · rw [if_pos hlen]
        exact List.drop_suffix _ _
      · rw [if_neg hlen]
    · intro kv hkv
      exact (List.mem_filter.mp hkv).1
  · intro st now frame_id o k hsome hnone
    by_cases hroi : o.in_roi
    · exfalso
      by_cases hg : ((lookupS st.active_sequences o.key).isNone
          && should_create_sequence_violation st o.key now o.using_scooper) = true
      · rw [process_obs_emit st now frame_id o hroi hg, update_roi_sequence_sv,
          mark_sequence_sv] at hnone
        by_cases hk : k = o.key
        · rw [hk, lookupS_insertS_self] at hnone
          exact Option.noConfusion hnone
        · rw [lookupS_insertS_ne _ _ _ _ hk] at hnone
          rw [hnone] at hsome
          exact Bool.noConfusion hsome
      · rw [process_obs_no_emit st now frame_id o hroi (Bool.eq_false_iff.mpr hg),
          update_roi_sequence_sv] at hnone
        rw [hnone] at hsome
        exact Bool.noConfusion hsome
    · have hroi' : o.in_roi = false := Bool.eq_false_iff.mpr hroi
      rw [process_obs_not_in_roi st now frame_id o hroi'] at hnone
      by_cases hk : Obs.key o = k
      · exact ⟨hk, hroi'⟩
      · rw [completion_sv_ne st o.key frame_id now k (fun h => hk h.symm)] at hnone
        rw [hnone] at hsome
        exact Bool.noConfusion hsome

/-- Witness for stale_janitor_frame_effect: an exit observation for key h_r
purges its sequence_violations entry. -/
theorem stale_janitor_frame_effect_witness :
    Obs.key (⟨"h", "r", false, false, 1, ⟨0, 0⟩, none, none⟩ : Obs) = "h_r"
    ∧ (⟨"h", "r", false, false, 1, ⟨0, 0⟩, none, none⟩ : Obs).in_roi = false :=
  stale_janitor_frame_effect.2
    ⟨[("h_r", ⟨"seq_1", "h", "r", none, "f0", none, 0, none, ["f0"], [⟨0, 0⟩],
        [false], [none], true, false⟩)], [], [("h_r", "v1")], [("h_r", 0)], 1, 1⟩
    5 "f1" ⟨"h", "r", false, false, 1, ⟨0, 0⟩, none, none⟩ "h_r" rfl rfl

/-- C9 counterexample: a violation_timestamps entry written 61 seconds ago is
deleted by the timestamp janitor alone, with no exit-closure of any sequence
for its key (the active map is empty). -/
theorem timestamp_janitor_purges_without_closure :
    (cleanup_old_violation_timestamps ⟨[], [], [], [("h_r", 0)], 0, 0⟩
        61).violation_timestamps = [] := by
  norm_num [cleanup_old_violation_timestamps, List.filter]

theorem fold_events_origin (now : ℚ) (frame_id : String) :
    ∀ (obs : List Obs) (st : DetectorState) (evs : List ViolationEvent)
      (ev : ViolationEvent),
      ev ∈ (obs.foldl (obs_fold_step now frame_id) (st, evs)).2 →
      ev ∈ evs ∨ ∃ o ∈ obs,
        ev.violation_type = ViolationType.HAND_WITHOUT_SCOOPER ∧ ev.severity = "high"
        ∧ ev.confidence = o.confidence ∧ ev.sequence_key = Obs.key o
        ∧ ev.time = now := by
  intro obs
  induction obs with
  | nil => exact fun st evs ev hev => Or.inl hev
  | cons o t ih =>
      intro st evs ev hev
      rw [List.foldl_cons] at hev
      rcases ih (process_obs st now frame_id o).1 (evs ++ (process_obs st now frame_id o).2)
          ev hev with hin | ⟨o', ho', hp⟩
      · rcases List.mem_append.mp hin with h1 | h2
        · exact Or.inl h1
        · have hf := process_obs_event_fields st now frame_id o ev h2
          exact Or.inr ⟨o, List.mem_cons_self o t,
            hf.1, hf.2.1, hf.2.2.1, hf.2.2.2.1, hf.2.2.2.2⟩
      · exact Or.inr ⟨o', List.mem_cons_of_mem o ho', hp⟩

/-- C10: every event emitted by the entry-frame violation path carries
violation_type HAND_WITHOUT_SCOOPER, severity high, and the confidence of
the hand observation that triggered it; observations built from raw
detections copy the hand detection's confidence, and a raw detection whose
confidence is missing or null parses to confidence 0. -/
theorem violation_event_payload :
    (∀ (st : DetectorState) (now : ℚ) (frame_id : String) (obs : List Obs)
        (ev : ViolationEvent),
        ev ∈ (detect_violations_step st now frame_id obs).2 →
        ev.violation_type = ViolationType.HAND_WITHOUT_SCOOPER ∧ ev.severity = "high"
        ∧ ∃ o ∈ obs, ev.confidence = o.confidence ∧ ev.sequence_key = Obs.key o)
    ∧ (∀ (detections : List Detection) (rois : List ROI) (allow_nearby : Bool)
        (o : Obs), o ∈ mk_frame_obs detections rois allow_nearby →
        ∃ hand ∈ detections, hand.class_name.toLower ∈ ["hand", "hands"]
          ∧ o.confidence = hand.confidence)
    ∧ (∀ raw : RawDetection, raw.confidence = none →
        (parse_detection raw).confidence = 0) := by
  refine ⟨?_, ?_, ?_⟩
  · intro st now frame_id obs ev hev
    have hev' : ev ∈ (obs.foldl (obs_fold_step now frame_id) (st, [])).2 := hev
    rcases fold_events_origin now frame_id obs st [] ev hev' with h | ⟨o, ho, h1, h2, h3, h4, -⟩
    · simp at h
    · exact ⟨h1, h2, o, ho, h3, h4⟩
  · intro detections rois allow_nearby o ho
    simp only [mk_frame_obs] at ho
    rw [List.mem_flatMap] at ho
    obtain ⟨ih, hih, homem⟩ := ho
    rw [List.mem_map] at homem
    obtain ⟨roi, -, rfl⟩ := homem
    have hmem : ih.2 ∈ detections.filter
        (fun d => decide (d.class_name.toLower ∈ ["hand", "hands"])) := by
      have h1 := List.mem_map_of_mem Prod.snd hih
      rwa [List.enum_map_snd] at h1
    obtain ⟨hd, hp⟩ := List.mem_filter.mp hmem
    exact ⟨ih.2, hd, of_decide_eq_true hp, rfl⟩
  · intro raw h
    simp [parse_detection, h]

/-- Witness for violation_event_payload: a raw detection with a null
confidence parses to confidence 0. -/
theorem violation_event_payload_witness :
    (parse_detection ⟨"hand", none, [("x1", 0)], ⟨0, 0⟩, 0⟩).confidence = 0 :=
  violation_event_payload.2.2 ⟨"hand", none, [("x1", 0)], ⟨0, 0⟩, 0⟩ rfl

theorem process_obs_budget (st : DetectorState) (now : ℚ) (frame_id : String)
    (o : Obs) (k : String) (hk : Obs.key o = k → o.in_roi = true) :
    (events_for k (process_obs st now frame_id o).2).length
      + sv_budget (process_obs st now frame_id o).1 k
    ≤ sv_budget st k := by
  by_cases hkey : Obs.key o = k
  · have hroi := hk hkey
    by_cases hsome : (lookupS st.sequence_violations k).isSome = true
    · have hsc : should_create_sequence_violation st o.key now o.using_scooper = false := by
        simp [should_create_sequence_violation, hkey, hsome]
      have hg : ((lookupS st.active_sequences o.key).isNone
          && should_create_sequence_violation st o.key now o.using_scooper) = false := by
        rw [hsc]
        simp
      rw [process_obs_no_emit st now frame_id o hroi hg]
      simp [events_for, sv_budget, update_roi_sequence_sv]
    · have hb : sv_budget st k = 1 := by simp [sv_budget, hsome]
      by_cases hg : ((lookupS st.active_sequences o.key).isNone
          && should_create_sequence_violation st o.key now o.using_scooper) = true
      · rw [process_obs_emit st now frame_id o hroi hg, hb]
        simp [events_for, sv_budget, update_roi_sequence_sv, mark_sequence_sv,
          hkey, lookupS_insertS_self]
      · rw [process_obs_no_emit st now frame_id o hroi (Bool.eq_false_iff.mpr hg)]
        simp [events_for, sv_budget, update_roi_sequence_sv]
  · have hevs : events_for k (process_obs st now frame_id o).2 = [] := by
      rw [events_for, List.filter_eq_nil_iff]
      intro ev hev
      have hf := (process_obs_event_fields st now frame_id o ev hev).2.2.2.1
      simp [hf, hkey]
    have hsv : lookupS (process_obs st now frame_id o).1.sequence_violations k
        = lookupS st.sequence_violations k := by
      by_cases hroi : o.in_roi
      · by_cases hg : ((lookupS st.active_sequences o.key).isNone
            && should_create_sequence_violation st o.key now o.using_scooper) = true
        · rw [process_obs_emit st now frame_id o hroi hg, update_roi_sequence_sv,
            mark_sequence_sv, lookupS_insertS_ne _ _ _ _ (fun hh => hkey hh.symm)]
        · rw [process_obs_no_emit st now frame_id o hroi (Bool.eq_false_iff.mpr hg),
            update_roi_sequence_sv]
      · rw [process_obs_not_in_roi st now frame_id o (Bool.eq_false_iff.mpr hroi)]
        exact completion_sv_ne st o.key frame_id now k (fun hh => hkey hh.symm)
    rw [hevs]
    simp [sv_budget, hsv]

theorem fold_budget (now : ℚ) (frame_id : String) (k : String) :
    ∀ (obs : List Obs) (st : DetectorState) (evs : List ViolationEvent),
      (∀ o ∈ obs, Obs.key o = k → o.in_roi = true) →
      (events_for k (obs.foldl (obs_fold_step now frame_id) (st, evs)).2).length
        + sv_budget (obs.foldl (obs_fold_step now frame_id) (st, evs)).1 k
      ≤ (events_for k evs).length + sv_budget st k := by
  intro obs
  induction obs with
  | nil => exact fun st evs _ => le_refl _
  | cons o t ih =>
      intro st evs h
      rw [List.foldl_cons]
      have hstep := process_obs_budget st now frame_id o k (h o (List.mem_cons_self o t))
      have hih := ih (process_obs st now frame_id o).1
        (evs ++ (process_obs st now frame_id o).2)
        (fun o' ho' => h o' (List.mem_cons_of_mem o ho'))
      have hev : events_for k (evs ++ (process_obs st now frame_id o).2)
          = events_for k evs ++ events_for k (process_obs st now frame_id o).2 := by
        simp [events_for, List.filter_append]
      rw [hev, List.length_append] at hih
      show (events_for k (t.foldl (obs_fold_step now frame_id)
            ((process_obs st now frame_id o).1,
             evs ++ (process_obs st now frame_id o).2)).2).length
          + sv_budget (t.foldl (obs_fold_step now frame_id)
              ((process_obs st now frame_id o).1,
               evs ++ (process_obs st now frame_id o).2)).1 k
        ≤ (events_for k evs).length + sv_budget st k
      omega

theorem step_budget (st : DetectorState) (now : ℚ) (frame_id : String)
    (obs : List Obs) (k : String)
    (h : ∀ o ∈ obs, Obs.key o = k → o.in_roi = true) :
    (events_for k (detect_violations_step st now frame_id obs).2).length
      + sv_budget (detect_violations_step st now frame_id obs).1 k
    ≤ sv_budget st k := by
  have hfold := fold_budget now frame_id k obs st [] h
  have hev : (detect_violations_step st now frame_id obs).2
      = (obs.foldl (obs_fold_step now frame_id) (st, [])).2 := rfl
  have hsv : sv_budget (detect_violations_step st now frame_id obs).1 k
      = sv_budget (obs.foldl (obs_fold_step now frame_id) (st, [])).1 k := rfl
  rw [hev, hsv]
  simpa [events_for] using hfold

theorem run_fold_budget (k : String) :
    ∀ (frames : List FrameIn) (st : DetectorState) (evs : List ViolationEvent),
      (∀ f ∈ frames, ∀ o ∈ f.obs, Obs.key o = k → o.in_roi = true) →
      (events_for k (frames.foldl frame_fold_step (st, evs)).2).length
        + sv_budget (frames.foldl frame_fold_step (st, evs)).1 k
      ≤ (events_for k evs).length + sv_budget st k := by
  intro frames
  induction frames with
  | nil => exact fun st evs _ => le_refl _
  | cons f rest ih =>
      intro st evs h
      rw [List.foldl_cons]
      have hstep := step_budget st f.now f.frame_id f.obs k (h f (List.mem_cons_self f rest))
      have hih := ih (detect_violations_step st f.now f.frame_id f.obs).1
        (evs ++ (detect_violations_step st f.now f.frame_id f.obs).2)
        (fun f' hf' => h f' (List.mem_cons_of_mem f hf'))
      have hev : events_for k (evs ++ (detect_violations_step st f.now f.frame_id f.obs).2)
          = events_for k evs
            ++ events_for k (detect_violations_step st f.now f.frame_id f.obs).2 := by
        simp [events_for, List.filter_append]
      rw [hev, List.length_append] at hih
      show (events_for k (rest.foldl frame_fold_step
            ((detect_violations_step st f.now f.frame_id f.obs).1,
             evs ++ (detect_violations_step st f.now f.frame_id f.obs).2)).2).length
          + sv_budget (rest.foldl frame_fold_step
              ((detect_violations_step st f.now f.frame_id f.obs).1,
               evs ++ (detect_violations_step st f.now f.frame_id f.obs).2)).1 k
        ≤ (events_for k evs).length + sv_budget st k
      omega

/-- C1 (amended): while no exit-closure for a key intervenes -- every
observation of the key keeps its hand inside the ROI -- at most one
ViolationEvent is emitted for the key over the whole run, whatever the frame
times; the 30-second-gap guarantee does not survive sequence turnover,
because a normal exit-closure deletes the key's cooldown entry. -/
theorem one_violation_per_key_without_closure (st : DetectorState)
    (frames : List FrameIn) (k : String)
    (h : ∀ f ∈ frames, ∀ o ∈ f.obs, Obs.key o = k → o.in_roi = true) :
    (events_for k (run_frames st frames).2).length ≤ 1 := by
  have hrun := run_fold_budget k frames st [] h
  have hb : sv_budget st k ≤ 1 := by
    unfold sv_budget
    split <;> omega
  have hz : (events_for k ([] : List ViolationEvent)).length = 0 := rfl
  rw [hz] at hrun
  have hgoal : (events_for k (frames.foldl frame_fold_step (st, [])).2).length ≤ 1 := by
    omega
  exact hgoal

/-- Witness for one_violation_per_key_without_closure: a single frame whose
only observation enters the ROI without a scooper. -/
theorem one_violation_per_key_without_closure_witness :
    (events_for "h_r" (run_frames initialState
        [⟨0, "f1", [⟨"h", "r", true, false, 1, ⟨0, 0⟩, none, none⟩]⟩]).2).length ≤ 1 :=
  one_violation_per_key_without_closure initialState
    [⟨0, "f1", [⟨"h", "r", true, false, 1, ⟨0, 0⟩, none, none⟩]⟩] "h_r"
    (by
      intro f hf o ho _
      simp only [List.mem_singleton] at hf
      rw [hf] at ho
      simp only [List.mem_singleton] at ho
      rw [ho])

/-- C2: once a violation is recorded for a key in sequence_violations, an
analysis call whose observations keep that key's hand inside the ROI emits
no further event for the key, and the registry entry survives the call, so
every later frame of the still-open sequence is suppressed as well. -/
theorem sequence_violation_suppression (st : DetectorState) (now : ℚ)
    (frame_id : String) (obs : List Obs) (k : String)
    (hsome : (lookupS st.sequence_violations k).isSome = true)
    (h : ∀ o ∈ obs, Obs.key o = k → o.in_roi = true) :
    events_for k (detect_violations_step st now frame_id obs).2 = []
    ∧ (lookupS
        (detect_violations_step st now frame_id obs).1.sequence_violations k).isSome
        = true := by
  have hstep := step_budget st now frame_id obs k h
  have hb0 : sv_budget st k = 0 := by simp [sv_budget, hsome]
  rw [hb0] at hstep
  have hlen : (events_for k (detect_violations_step st now frame_id obs).2).length = 0 := by
    omega
  have hbz : sv_budget (detect_violations_step st now frame_id obs).1 k = 0 := by
    omega
  refine ⟨List.length_eq_zero.mp hlen, ?_⟩
  by_contra hc
  have hone : sv_budget (detect_violations_step st now frame_id obs).1 k = 1 := by
    simp [sv_budget, hc]
  omega

/-- Witness for sequence_violation_suppression: the key h_r already has a
recorded violation and its hand stays in the ROI this frame. -/
theorem sequence_violation_suppression_witness :
    events_for "h_r" (detect_violations_step
        ⟨[("h_r", ⟨"seq_1", "h", "r", none, "f0", none, 0, none, ["f0"], [⟨0, 0⟩],
            [false], [none], true, false⟩)], [], [("h_r", "v1")], [("h_r", 0)], 1, 1⟩
        1 "f2" [⟨"h", "r", true, false, 1, ⟨0, 0⟩, none, none⟩]).2 = []
    ∧ (lookupS (detect_violations_step
        ⟨[("h_r", ⟨"seq_1", "h", "r", none, "f0", none, 0, none, ["f0"], [⟨0, 0⟩],
            [false], [none], true, false⟩)], [], [("h_r", "v1")], [("h_r", 0)], 1, 1⟩
        1 "f2" [⟨"h", "r", true, false, 1, ⟨0, 0⟩, none, none⟩]).1.sequence_violations
        "h_r").isSome = true :=
  sequence_violation_suppression
    ⟨[("h_r", ⟨"seq_1", "h", "r", none, "f0", none, 0, none, ["f0"], [⟨0, 0⟩],
        [false], [none], true, false⟩)], [], [("h_r", "v1")], [("h_r", 0)], 1, 1⟩
    1 "f2" [⟨"h", "r", true, false, 1, ⟨0, 0⟩, none, none⟩] "h_r" rfl
    (by
      intro o ho _
      simp only [List.mem_singleton] at ho
      rw [ho])

theorem process_obs_extends (st : DetectorState) (now : ℚ) (frame_id : String)
    (o : Obs) (s : ROISequence) (hroi : o.in_roi = true)
    (hs : lookupS st.active_sequences (Obs.key o) = some s) :
    (process_obs st now frame_id o).2 = []
    ∧ ∃ s', lookupS (process_obs st now frame_id o).1.active_sequences (Obs.key o)
        = some s' ∧ s'.entry_time = s.entry_time := by
  have hg : ((lookupS st.active_sequences o.key).isNone
      && should_create_sequence_violation st o.key now o.using_scooper) = false := by
    rw [hs]
    simp
  rw [process_obs_no_emit st now frame_id o hroi hg]
  refine ⟨rfl, ?_⟩
  simp only [Obs.key] at hs ⊢
  dsimp only [update_roi_sequence]
  simp only [hs]
  exact ⟨s.add_frame frame_id o.hand_position o.using_scooper o.scooper_distance,
    lookupS_insertS_self _ _ _, rfl⟩

theorem process_obs_opens_compliant (st : DetectorState) (now : ℚ)
    (frame_id : String) (o : Obs) (hroi : o.in_roi = true)
    (husing : o.using_scooper = true)
    (hnone : lookupS st.active_sequences (Obs.key o) = none) :
    (process_obs st now frame_id o).2 = []
    ∧ ∃ s', lookupS (process_obs st now frame_id o).1.active_sequences (Obs.key o)
        = some s' ∧ s'.entry_time = now := by
  have hsc : should_create_sequence_violation st o.key now o.using_scooper = false := by
    simp [should_create_sequence_violation, husing]
  have hg : ((lookupS st.active_sequences o.key).isNone
      && should_create_sequence_violation st o.key now o.using_scooper) = false := by
    rw [hsc]
    simp
  rw [process_obs_no_emit st now frame_id o hroi hg]
  refine ⟨rfl, ?_⟩
  simp only [Obs.key] at hnone ⊢
  dsimp only [update_roi_sequence]
  simp only [hnone]
  exact ⟨_, lookupS_insertS_self _ _ _, rfl⟩

theorem process_obs_active_ne (st : DetectorState) (now : ℚ) (frame_id : String)
    (o : Obs) (k : String) (hk : k ≠ Obs.key o) :
    lookupS (process_obs st now frame_id o).1.active_sequences k
      = lookupS st.active_sequences k := by
  by_cases hroi : o.in_roi
  · by_cases hg : ((lookupS st.active_sequences o.key).isNone
        && should_create_sequence_violation st o.key now o.using_scooper) = true
    · rw [process_obs_emit st now frame_id o hroi hg]
      rw [update_roi_sequence_active _ _ _ _ _ _ _ _ _ _ hk]
      rfl
    · rw [process_obs_no_emit st now frame_id o hroi (Bool.eq_false_iff.mpr hg)]
      exact update_roi_sequence_active _ _ _ _ _ _ _ _ _ _ hk
  · rw [process_obs_not_in_roi st now frame_id o (Bool.eq_false_iff.mpr hroi)]
    exact completion_active_ne st o.key frame_id now k hk

theorem process_obs_events_other_key (st : DetectorState) (now : ℚ)
    (frame_id : String) (o : Obs) (k : String) (hk : Obs.key o ≠ k) :
    events_for k (process_obs st now frame_id o).2 = [] := by
  rw [events_for, List.filter_eq_nil_iff]
  intro ev hev
  have hf := (process_obs_event_fields st now frame_id o ev hev).2.2.2.1
  simp [hf, hk]

theorem fold_keeps_open (now : ℚ) (frame_id : String) (k : String) (t0 : ℚ) :
    ∀ (obs : List Obs) (st : DetectorState) (evs : List ViolationEvent),
      (∀ o ∈ obs, Obs.key o = k → o.in_roi = true) →
      (∃ s, lookupS st.active_sequences k = some s ∧ s.entry_time = t0) →
      events_for k evs = [] →
      events_for k (obs.foldl (obs_fold_step now frame_id) (st, evs)).2 = []
      ∧ ∃ s', lookupS
          (obs.foldl (obs_fold_step now frame_id) (st, evs)).1.active_sequences k
          = some s' ∧ s'.entry_time = t0 := by
  intro obs
  induction obs with
  | nil => exact fun st evs _ hinv hev => ⟨hev, hinv⟩
  | cons o t ih =>
      intro st evs h hinv hev
      rw [List.foldl_cons]
      obtain ⟨s, hs, ht0⟩ := hinv
      by_cases hkey : Obs.key o = k
      · have hroi := h o (List.mem_cons_self o t) hkey
        obtain ⟨hev2, s', hs', ht0'⟩ :=
          process_obs_extends st now frame_id o s hroi (by rw [hkey]; exact hs)
        have hinv' : ∃ s'', lookupS
            (process_obs st now frame_id o).1.active_sequences k = some s''
            ∧ s''.entry_time = t0 := by
          refine ⟨s', ?_, ?_⟩
          · rw [← hkey]
            exact hs'
          · rw [ht0']
            exact ht0
        have hev' : events_for k (evs ++ (process_obs st now frame_id o).2) = [] := by
          rw [hev2, List.append_nil]
          exact hev
        have := ih (process_obs st now frame_id o).1
          (evs ++ (process_obs st now frame_id o).2)
          (fun o' ho' => h o' (List.mem_cons_of_mem o ho')) hinv' hev'
        exact this
      · have hsv := process_obs_active_ne st now frame_id o k (fun hh => hkey hh.symm)
        have hev2 := process_obs_events_other_key st now frame_id o k hkey
        have hinv' : ∃ s'', lookupS
            (process_obs st now frame_id o).1.active_sequences k = some s''
            ∧ s''.entry_time = t0 := ⟨s, by rw [hsv]; exact hs, ht0⟩
        have hev' : events_for k (evs ++ (process_obs st now frame_id o).2) = [] := by
          have happ : events_for k (evs ++ (process_obs st now frame_id o).2)
              = events_for k evs ++ events_for k (process_obs st now frame_id o).2 := by
            simp [events_for, List.filter_append]
          rw [happ, hev, hev2]
          rfl
        have := ih (process_obs st now frame_id o).1
          (evs ++ (process_obs st now frame_id o).2)
          (fun o' ho' => h o' (List.mem_cons_of_mem o ho')) hinv' hev'
        exact this

theorem fold_opens_compliant (now : ℚ) (frame_id : String) (k : String) :
    ∀ (obs : List Obs) (st : DetectorState) (evs : List ViolationEvent),
      (∀ o ∈ obs, Obs.key o = k → (o.in_roi = true ∧ o.using_scooper = true)) →
      lookupS st.active_sequences k = none →
      events_for k evs = [] →
      events_for k (obs.foldl (obs_fold_step now frame_id) (st, evs)).2 = []
      ∧ ((lookupS
            (obs.foldl (obs_fold_step now frame_id) (st, evs)).1.active_sequences k
            = none ∧ ∀ o ∈ obs, Obs.key o ≠ k)
          ∨ ∃ s, lookupS
              (obs.foldl (obs_fold_step now frame_id) (st, evs)).1.active_sequences k
              = some s ∧ s.entry_time = now) := by
  intro obs
  induction obs with
  | nil => exact fun st evs _ hnone hev => ⟨hev, Or.inl ⟨hnone, by simp⟩⟩
  | cons o t ih =>
      intro st evs h hnone hev
      rw [List.foldl_cons]
      by_cases hkey : Obs.key o = k
      · obtain ⟨hroi, husing⟩ := h o (List.mem_cons_self o t) hkey
        obtain ⟨hev2, s', hs', ht'⟩ :=
          process_obs_opens_compliant st now frame_id o hroi husing
            (by rw [hkey]; exact hnone)
        have hinv' : ∃ s'', lookupS
            (process_obs st now frame_id o).1.active_sequences k = some s''
            ∧ s''.entry_time = now := ⟨s', by rw [← hkey]; exact hs', ht'⟩
        have hev' : events_for k (evs ++ (process_obs st now frame_id o).2) = [] := by
          rw [hev2, List.append_nil]
          exact hev
        obtain ⟨he, hinvf⟩ := fold_keeps_open now frame_id k now t
          (process_obs st now frame_id o).1
          (evs ++ (process_obs st now frame_id o).2)
          (fun o' ho' hko' => (h o' (List.mem_cons_of_mem o ho') hko').1) hinv' hev'
        exact ⟨he, Or.inr hinvf⟩
      · have hsv := process_obs_active_ne st now frame_id o k (fun hh => hkey hh.symm)
        have hev2 := process_obs_events_other_key st now frame_id o k hkey
        have hev' : events_for k (evs ++ (process_obs st now frame_id o).2) = [] := by
          have happ : events_for k (evs ++ (process_obs st now frame_id o).2)
              = events_for k evs ++ events_for k (process_obs st now frame_id o).2 := by
            simp [events_for, List.filter_append]
          rw [happ, hev, hev2]
          rfl
        obtain ⟨he, hca⟩ := ih (process_obs st now frame_id o).1
          (evs ++ (process_obs st now frame_id o).2)
          (fun o' ho' => h o' (List.mem_cons_of_mem o ho'))
          (by rw [hsv]; exact hnone) hev'
        refine ⟨he, ?_⟩
        rcases hca with ⟨hn, hno⟩ | hb
        · refine Or.inl ⟨hn, ?_⟩
          intro o' ho'
          rcases List.mem_cons.mp ho' with hh | hh
          · rw [hh]
            exact hkey
          · exact hno o' hh
        · exact Or.inr hb

theorem frame_opens_compliant (st : DetectorState) (f : FrameIn) (k : String)
    (hnone : lookupS st.active_sequences k = none)
    (hobs : ∀ o ∈ f.obs, Obs.key o = k → (o.in_roi = true ∧ o.using_scooper = true))
    (hex : ∃ o ∈ f.obs, Obs.key o = k) :
    events_for k (detect_violations_step st f.now f.frame_id f.obs).2 = []
    ∧ ∃ s, lookupS
        (detect_violations_step st f.now f.frame_id f.obs).1.active_sequences k
        = some s ∧ s.entry_time = f.now := by
  obtain ⟨hev, hca⟩ :=
    fold_opens_compliant f.now f.frame_id k f.obs st [] hobs hnone rfl
  rcases hca with ⟨-, hno⟩ | ⟨s, hs, ht⟩
  · obtain ⟨o, ho, hk⟩ := hex
    exact absurd hk (hno o ho)
  · refine ⟨hev, s, ?_, ht⟩
    have hkeep : ¬(f.now - s.entry_time > 30) := by
      rw [ht]
      simp
    exact lookupS_filter_of_pos _ _ _ _ hs (by simp [hkeep])

theorem frame_keeps_open (st : DetectorState) (f : FrameIn) (k : String) (t0 : ℚ)
    (hinv : ∃ s, lookupS st.active_sequences k = some s ∧ s.entry_time = t0)
    (hobs : ∀ o ∈ f.obs, Obs.key o = k → o.in_roi = true)
    (htime : f.now - t0 ≤ 30) :
    events_for k (detect_violations_step st f.now f.frame_id f.obs).2 = []
    ∧ ∃ s, lookupS
        (detect_violations_step st f.now f.frame_id f.obs).1.active_sequences k
        = some s ∧ s.entry_time = t0 := by
  obtain ⟨hev, s, hs, ht⟩ :=
    fold_keeps_open f.now f.frame_id k t0 f.obs st [] hobs hinv rfl
  refine ⟨hev, s, ?_, ht⟩
  have hkeep : ¬(f.now - s.entry_time > 30) := by
    rw [ht]
    exact not_lt.mpr htime
  exact lookupS_filter_of_pos _ _ _ _ hs (by simp [hkeep])

theorem run_fold_keeps_open (k : String) (t0 : ℚ) :
    ∀ (frames : List FrameIn) (st : DetectorState) (evs : List ViolationEvent),
      (∀ f ∈ frames,
        (∀ o ∈ f.obs, Obs.key o = k → o.in_roi = true) ∧ f.now - t0 ≤ 30) →
      (∃ s, lookupS st.active_sequences k = some s ∧ s.entry_time = t0) →
      events_for k evs = [] →
      events_for k (frames.foldl frame_fold_step (st, evs)).2 = [] := by
  intro frames
  induction frames with
  | nil => exact fun st evs _ _ hev => hev
  | cons f rest ih =>
      intro st evs h hinv hev
      rw [List.foldl_cons]
      obtain ⟨hev2, hinv'⟩ := frame_keeps_open st f k t0 hinv
        (h f (List.mem_cons_self f rest)).1 (h f (List.mem_cons_self f rest)).2
      have hev' : events_for k
          (evs ++ (detect_violations_step st f.now f.frame_id f.obs).2) = [] := by
        have happ : events_for k
            (evs ++ (detect_violations_step st f.now f.frame_id f.obs).2)
            = events_for k evs
              ++ events_for k (detect_violations_step st f.now f.frame_id f.obs).2 := by
          simp [events_for, List.filter_append]
        rw [happ, hev, hev2]
        rfl
      exact ih (detect_violations_step st f.now f.frame_id f.obs).1
        (evs ++ (detect_violations_step st f.now f.frame_id f.obs).2)
        (fun f' hf' => h f' (List.mem_cons_of_mem f hf')) hinv' hev'

/-- C3: if the hand is using a scooper at the frame where its sequence
opens, then no ViolationEvent is ever emitted for that sequence while it
stays open, whatever the using_scooper values of later frames -- the arbiter
runs only at the entry frame and is never re-run for continuing frames.
The time bound keeps the staleness janitor from force-closing the sequence
during the run. -/
theorem compliant_entry_no_violation (st : DetectorState) (f0 : FrameIn)
    (rest : List FrameIn) (k : String)
    (hnone : lookupS st.active_sequences k = none)
    (hobs0 : ∀ o ∈ f0.obs, Obs.key o = k → (o.in_roi = true ∧ o.using_scooper = true))
    (hex : ∃ o ∈ f0.obs, Obs.key o = k)
    (hrest : ∀ f ∈ rest, ∀ o ∈ f.obs, Obs.key o = k → o.in_roi = true)
    (htime : ∀ f ∈ rest, f.now - f0.now ≤ 30) :
    events_for k (run_frames st (f0 :: rest)).2 = [] := by
  obtain ⟨hev0, hinv⟩ := frame_opens_compliant st f0 k hnone hobs0 hex
  have hev' : events_for k
      ([] ++ (detect_violations_step st f0.now f0.frame_id f0.obs).2) = [] := by
    rw [List.nil_append]
    exact hev0
  have hrun := run_fold_keeps_open k f0.now rest
    (detect_violations_step st f0.now f0.frame_id f0.obs).1
    ([] ++ (detect_violations_step st f0.now f0.frame_id f0.obs).2)
    (fun f hf => ⟨hrest f hf, htime f hf⟩) hinv hev'
  show events_for k ((f0 :: rest).foldl frame_fold_step (st, [])).2 = []
  rw [List.foldl_cons]
  exact hrun

/-- Witness for compliant_entry_no_violation: the hand enters with a scooper
at time 0 and stays in the ROI at time 1 without one; no event is emitted. -/
theorem compliant_entry_no_violation_witness :
    events_for "h_r" (run_frames initialState
      [⟨0, "f1", [⟨"h", "r", true, true, 1, ⟨0, 0⟩, some 25, none⟩]⟩,
       ⟨1, "f2", [⟨"h", "r", true, false, 1, ⟨0, 0⟩, none, none⟩]⟩]).2 = [] :=
  compliant_entry_no_violation initialState
    ⟨0, "f1", [⟨"h", "r", true, true, 1, ⟨0, 0⟩, some 25, none⟩]⟩
    [⟨1, "f2", [⟨"h", "r", true, false, 1, ⟨0, 0⟩, none, none⟩]⟩] "h_r"
    rfl
    (by
      intro o ho _
      simp only [List.mem_singleton] at ho
      rw [ho]
      exact ⟨rfl, rfl⟩)
    ⟨⟨"h", "r", true, true, 1, ⟨0, 0⟩, some 25, none⟩, by simp, by decide⟩
    (by
      intro f hf o ho _
      simp only [List.mem_singleton] at hf
      rw [hf] at ho
      simp only [List.mem_singleton] at ho
      rw [ho])
    (by
      intro f hf
      simp only [List.mem_singleton] at hf
      rw [hf]
      norm_num)

/-- C1 counterexample: the key h_r receives a violation at time 0, the hand
exits at time 1 (a normal closure, which deletes the key's cooldown entry),
re-enters at time 2, and receives a second violation at time 2 -- two
ViolationEvents for the same key only 2 seconds apart, far inside the
30-second cooldown window. -/
theorem cooldown_not_preserved_across_closure :
    ((run_frames initialState
        [⟨0, "f1", [⟨"h", "r", true, false, 1, ⟨0, 0⟩, none, none⟩]⟩,
         ⟨1, "f2", [⟨"h", "r", false, false, 1, ⟨0, 0⟩, none, none⟩]⟩,
         ⟨2, "f3", [⟨"h", "r", true, false, 1, ⟨0, 0⟩, none, none⟩]⟩]).2.map
      (fun ev => (ev.sequence_key, ev.time))) = [("h_r", 0), ("h_r", 2)]
    ∧ (2 : ℚ) - 0 < 30 := by
  constructor
  · have happ : ("h" ++ "_" ++ "r" : String) = "h_r" := by decide
    norm_num [run_frames, frame_fold_step, detect_violations_step, obs_fold_step,
      process_obs, should_create_sequence_violation, mark_sequence_as_violation,
      update_roi_sequence, check_sequence_completion, cleanup_old_sequences,
      cleanup_old_violation_timestamps, create_violation, lookupS, insertS, eraseS,
      Obs.key, List.foldl, List.filter, ROISequence.add_frame,
      ROISequence.complete_sequence, initialState, happ]
  · norm_num
